import Mathlib

/-!
# vela-manager: node lifecycle engine and pusher

A shallow embedding of `app/service/minion.go` (the `minionService` operations
`Drop`, `Create`, `Delete`, `Upgrade`, `Command`, `Unload`) over an explicit
relational store, and of `bridge/push/push.go` (the `pushImpl` operations
`TaskTable`, `TaskSync`, `TaskDiff`) over the task table and the hub calls.
Every storage statement of the Go code is one step of the model; the error a
statement may return is an input of the model (a fault record), so that the
error branches of the Go code are all reachable.
-/

namespace VelaManager

/-! ## Data model -/

/-- Modelled from the spec: the node status enumeration (`model.MinionStatus`,
declared outside this repository). `status ∈ {Offline, Online, Inactive, Delete}`. -/
inductive MinionStatus where
  | MSInactive
  | MSOffline
  | MSOnline
  | MSDelete
  deriving DecidableEq, Repr

/-- Modelled from the spec: the tag kind enumeration (`model.TagKind`, declared
outside this repository). `kind ∈ {Lifelong, Ephemeral}`. -/
inductive TagKind where
  | TkLifelong
  | TkEphemeral
  deriving DecidableEq, Repr

/-- Errors returned by the service. `ErrDeleteFailed` and `ErrNodeStatus` are the
values of `errcode/error.go`; `ErrInetAddress` and `ErrInetExist` are the two
address errors used by `Create`; `ErrRecordNotFound` is what `First()` returns on
an empty result; `db n` is any other error reported by the storage layer. -/
inductive Err where
  | ErrDeleteFailed
  | ErrNodeStatus
  | ErrInetAddress
  | ErrInetExist (inet : String)
  | ErrRecordNotFound
  | db (code : Nat)
  deriving DecidableEq, Repr

/-- A row of the minion table (the columns the service reads or writes). -/
structure Minion where
  id : Int
  inet : String
  goos : String
  arch : String
  status : MinionStatus
  unload : Bool
  brokerID : Int
  deriving DecidableEq, Repr

/-- A row of the minion_tag table. -/
structure MinionTag where
  tag : String
  minionID : Int
  kind : TagKind
  deriving DecidableEq, Repr

/-- A row of the substance table: a configuration bound to one node. -/
structure Substance where
  id : Int
  minionID : Int
  deriving DecidableEq, Repr

/-- A row of the effect table: a binding from a tag value to a configuration unit. -/
structure Effect where
  id : Int
  tag : String
  effectID : Int
  deriving DecidableEq, Repr

/-- The derived tables that `Drop` cleans after its transaction. -/
inductive DerivedTable where
  | Cmdb
  | SysInfo
  | Event
  | Risk
  | MinionAccount
  | MinionGroup
  | MinionListen
  | MinionProcess
  | MinionTask
  | SBOMMinion
  | SBOMProject
  | SBOMComponent
  deriving DecidableEq, Repr

/-- A row of a derived table; `owner` is the column compared with the node id
(`ID` for Cmdb, SysInfo and SBOMMinion, `MinionID` for the others). -/
structure DerivedRow where
  table : DerivedTable
  owner : Int
  payload : Nat
  deriving DecidableEq, Repr

/-- The relational store. -/
structure Store where
  minions : List Minion
  tags : List MinionTag
  substances : List Substance
  effects : List Effect
  derived : List DerivedRow
  deriving DecidableEq, Repr

/-- Calls issued to the collaborators of the service: the pusher
(`bridge/push.Pusher`) and the inventory client (`cmdb.Client`). -/
inductive Call where
  | pushUpgrade (bid mid : Int) (semver : String)
  | pushCommand (bid mid : Int) (cmd : String)
  | pushTaskSync (bid mid : Int) (inet : String)
  | cmdbFetchAndSave (mid : Int) (inet : String)
  deriving DecidableEq, Repr

/-- What one service call leaves behind: the returned `error` (`none` is `nil`),
the store after the call and the collaborator calls issued, in order. -/
structure Outcome where
  err : Option Err
  store : Store
  calls : List Call
  deriving DecidableEq, Repr

/-- The statement `tbl.Where(tbl.ID.Eq(id)).First()`: a storage error, or
`ErrRecordNotFound`, or the row. -/
def First (fault : Option Err) (s : Store) (id : Int) : Except Err Minion :=
  match fault with
  | some e => .error e
  | none =>
    match s.minions.find? (fun m => m.id == id) with
    | none => .error Err.ErrRecordNotFound
    | some m => .ok m

/-! ## Drop -/

/-- The errors the storage statements of `Drop` return, in source order. -/
structure DropFaults where
  first : Option Err
  tagScan : Option Err
  txTag : Option Err
  txSub : Option Err
  txMinion : Option Err
  txCommit : Option Err
  secondary : Nat → Bool
  afterScan : Option Err
  effDelete : Option Err

/-- No storage statement fails. -/
def DropFaults.none : DropFaults :=
  { first := Option.none, tagScan := Option.none, txTag := Option.none, txSub := Option.none,
    txMinion := Option.none, txCommit := Option.none, secondary := fun _ => false,
    afterScan := Option.none, effDelete := Option.none }

/-- The statement `SELECT DISTINCT tag FROM minion_tag WHERE minion_id = id`. -/
def tagsOf (s : Store) (id : Int) : List String :=
  ((s.tags.filter (fun t => t.minionID == id)).map (fun t => t.tag)).dedup

/-- The closure passed to `query.Q.Transaction` in `Drop`: three deletes, then the
commit. An error at any point rolls everything back (the caller keeps the old store). -/
def dropTx (f : DropFaults) (s : Store) (id : Int) : Except Err Store :=
  match f.txTag with
  | some e => .error e
  | none =>
    let s1 := { s with tags := s.tags.filter (fun t => t.minionID != id) }
    match f.txSub with
    | some e => .error e
    | none =>
      let s2 := { s1 with substances := s1.substances.filter (fun b => b.minionID != id) }
      match f.txMinion with
      | some e => .error e
      | none =>
        let s3 := { s2 with minions := s2.minions.filter (fun m => m.id != id) }
        match f.txCommit with
        | some e => .error e
        | none => .ok s3

/-- The tables of the thirteen best-effort deletes of `Drop`, in source order
(`query.MinionListen` is used by two consecutive statements). -/
def secondaryTables : List DerivedTable :=
  [.Cmdb, .SysInfo, .Event, .Risk, .MinionAccount, .MinionGroup, .MinionListen,
   .MinionListen, .MinionProcess, .MinionTask, .SBOMMinion, .SBOMProject, .SBOMComponent]

/-- One best-effort delete on a derived table. -/
def deleteDerived (s : Store) (t : DerivedTable) (id : Int) : Store :=
  { s with derived := s.derived.filter (fun r => !(r.table == t && r.owner == id)) }

/-- The best-effort deletes of `Drop`: statement `i` is skipped when it fails,
its error is discarded (`_, _ = ...Delete()`). -/
def secondaryCleanup (fails : Nat → Bool) (s : Store) (id : Int) : Store :=
  secondaryTables.enum.foldl
    (fun acc it => if fails it.1 then acc else deleteDerived acc it.2 id) s

/-- The statement `SELECT DISTINCT tag FROM minion_tag WHERE tag IN (tags...)`. -/
def tagsStillUsed (s : Store) (tags : List String) : List String :=
  ((s.tags.filter (fun t => decide (t.tag ∈ tags))).map (fun t => t.tag)).dedup

/-- The wild tags: the keys of the map `thm` after the held tags were inserted and
the still-used ones deleted. Only membership in the result is observed. -/
def wildTagsOf (tags afterTags : List String) : List String :=
  tags.filter (fun t => !decide (t ∈ afterTags))

/-- The last part of `Drop` (from `size := len(tags)` on): the wild-tag pass over
the store `s2` left by the transaction and the best-effort deletes; `tags` are the
tag values the node held. -/
def wildTagPass (f : DropFaults) (tags : List String) (s2 : Store) : Outcome :=
  if tags.length = 0 then ⟨none, s2, []⟩
  else
    match f.afterScan with
    | some e => ⟨some e, s2, []⟩
    | none =>
      let afterTags := tagsStillUsed s2 tags
      let wildTags := wildTagsOf tags afterTags
      if wildTags.length = 0 then ⟨none, s2, []⟩
      else
        match f.effDelete with
        | some e => ⟨some e, s2, []⟩
        | none =>
          ⟨none, { s2 with effects :=
              s2.effects.filter (fun e => !decide (e.tag ∈ wildTags)) }, []⟩

/-- The method `minionService.Drop`. -/
def Drop (f : DropFaults) (s : Store) (id : Int) : Outcome :=
  match First f.first s id with
  | .error e => ⟨some e, s, []⟩
  | .ok mon =>
    if mon.status ≠ MinionStatus.MSDelete then ⟨some Err.ErrDeleteFailed, s, []⟩
    else
      match f.tagScan with
      | some e => ⟨some e, s, []⟩
      | none =>
        let tags := tagsOf s id
        match dropTx f s id with
        | .error e => ⟨some e, s, []⟩
        | .ok s1 => wildTagPass f tags (secondaryCleanup f.secondary s1 id)

/-! ## Create -/

/-- An address as Go's `net.IP`: a byte slice; the empty slice is the `nil` that
`net.ParseIP` returns for text that is no address. -/
abbrev IP := List Nat

/-- The part of Go's standard `net` package that `Create` calls. It is not code of
this repository, so the service is modelled over any implementation of it. -/
structure NetLib where
  ParseIP : String → IP
  IsLoopback : IP → Bool
  IsUnspecified : IP → Bool
  Equal : IP → IP → Bool
  IPv4bcast : IP
  String : IP → String

/-- The request body `param.MinionCreate`. -/
structure MinionCreate where
  inet : String
  goos : String
  arch : String
  deriving DecidableEq, Repr

/-- The errors the storage statements of `Create` return, and the id the store
assigns to the inserted node row. -/
structure CreateFaults where
  count : Option Err
  create : Option Err
  newID : Int
  tagCreate : Option Err

/-- The tag rows `Create` builds for a new node: always the address, then the OS
and the architecture when they are not empty. -/
def createTags (ipv4 : String) (mc : MinionCreate) (monID : Int) : List MinionTag :=
  let tags : List MinionTag := [⟨ipv4, monID, TagKind.TkLifelong⟩]
  let tags := if mc.goos ≠ "" then tags ++ [⟨mc.goos, monID, TagKind.TkLifelong⟩] else tags
  let tags := if mc.arch ≠ "" then tags ++ [⟨mc.arch, monID, TagKind.TkLifelong⟩] else tags
  tags

/-- The method `minionService.Create`. The columns the Go code leaves at their
zero value (`Unload`, `BrokerID`) are `false` and `0`. The error of the tag insert
and of the inventory fetch is discarded by the Go code (`_ = ...`). -/
def Create (net : NetLib) (f : CreateFaults) (s : Store) (mc : MinionCreate) : Outcome :=
  let inet := net.ParseIP mc.inet
  if inet.length = 0 ∨ net.IsLoopback inet = true ∨ net.IsUnspecified inet = true ∨
      net.Equal inet net.IPv4bcast = true then
    ⟨some Err.ErrInetAddress, s, []⟩
  else
    let ipv4 := net.String inet
    let count := (s.minions.filter (fun m => m.inet == ipv4)).length
    if f.count ≠ none ∨ count ≠ 0 then ⟨some (Err.ErrInetExist ipv4), s, []⟩
    else
      match f.create with
      | some e => ⟨some e, s, []⟩
      | none =>
        let mon : Minion :=
          { id := f.newID, inet := ipv4, goos := mc.goos, arch := mc.arch,
            status := MinionStatus.MSOffline, unload := false, brokerID := 0 }
        let s1 := { s with minions := s.minions ++ [mon] }
        let tags := createTags ipv4 mc mon.id
        let s2 :=
          match f.tagCreate with
          | some _ => s1
          | none => { s1 with tags := s1.tags ++ tags }
        ⟨none, s2, [Call.cmdbFetchAndSave mon.id ipv4]⟩

/-! ## Delete (bulk soft delete) -/

/-- The rows of `minion LEFT JOIN minion_tag ON minion_tag.minion_id = minion.id`. -/
def joinedRows (s : Store) : List (Minion × Option MinionTag) :=
  s.minions.flatMap (fun m =>
    let ts := s.tags.filter (fun t => t.minionID == m.id)
    if ts.isEmpty then [(m, none)] else ts.map (fun t => (m, some t)))

/-- The WHERE clause of the select of `Delete` when `likes` is empty: the statement
holds `status <> Delete` (line 285) and the conditions of the scope (line 295), all of
which a row must satisfy. -/
def whereScope (scope : Minion → Option MinionTag → Bool) :
    Minion → Option MinionTag → Bool :=
  fun m t => m.status != MinionStatus.MSDelete && scope m t

/-- The WHERE clause of the select of `Delete` when `likes` is not empty and the scope
adds no condition: `dao.Or(like)` (lines 287-292) adds each like to the statement that
holds `status <> Delete` as an alternative, `status <> Delete OR like1 OR like2 ...`,
so a row in status Delete that satisfies a like is selected, and so is a row that
satisfies no like and is not in status Delete. -/
def whereLikes (likes : List (Minion → Option MinionTag → Bool)) :
    Minion → Option MinionTag → Bool :=
  fun m t => m.status != MinionStatus.MSDelete || likes.any (fun like => like m t)

/-- The statement `db.Scan(&mids)`: the distinct node ids of the joined rows that
satisfy the WHERE clause `whr` of the statement, ordered by id, at most 100 of them.
The clause is assembled by the query builder (gorm, not part of this repository) from
`status <> Delete`, the likes and the scope: it is `whereScope scope` without likes and
`whereLikes likes` with likes and no scope condition; the select is modelled for every
clause on the rows of the join. -/
def selectRound (whr : Minion → Option MinionTag → Bool) (s : Store) : List Int :=
  (((((joinedRows s).filter (fun r => whr r.1 r.2)).map
      (fun r => r.1.id)).dedup).insertionSort (fun a b => a ≤ b)).take 100

/-- The statement `UPDATE minion SET status = Delete WHERE status <> Delete AND id IN (mids)`. -/
def markDeleted (s : Store) (mids : List Int) : Store :=
  { s with minions := s.minions.map (fun m =>
      if m.status != MinionStatus.MSDelete && decide (m.id ∈ mids)
      then { m with status := MinionStatus.MSDelete } else m) }

/-- The errors of the storage statements of `Delete`, by round (1 to 100): the
error of the select, and whether the update fails. -/
structure DeleteFaults where
  scan : Nat → Option Err
  update : Nat → Bool

/-- What a `Delete` call leaves behind; `rounds` lists, oldest first, the ids each
executed select returned (a failed select is listed as returning none). -/
structure DeleteRun where
  err : Option Err
  store : Store
  rounds : List (List Int)

/-- The loop `for round < 100` of `Delete`; `n` is `100 - round`, the number of
rounds the loop condition still admits. The error of the update is discarded by the
Go code; an update that fails changes no row. -/
def deleteLoop (whr : Minion → Option MinionTag → Bool) (f : DeleteFaults) :
    Nat → Store → List (List Int) → DeleteRun
  | 0, s, tr => ⟨none, s, tr⟩
  | n + 1, s, tr =>
    let round := 100 - n
    match f.scan round with
    | some e => ⟨some e, s, tr ++ [[]]⟩
    | none =>
      let mids := selectRound whr s
      if mids.length = 0 then ⟨none, s, tr ++ [mids]⟩
      else
        let s1 := if f.update round = true then s else markDeleted s mids
        deleteLoop whr f n s1 (tr ++ [mids])

/-- The method `minionService.Delete`; `whr` is the WHERE clause of its select. -/
def Delete (whr : Minion → Option MinionTag → Bool) (f : DeleteFaults) (s : Store) :
    DeleteRun :=
  deleteLoop whr f 100 s []

/-- The number of node rows whose status is Delete. -/
def deletedCount (s : Store) : Nat :=
  (s.minions.filter (fun m => m.status == MinionStatus.MSDelete)).length

/-- The only change `Delete` makes to a node row: nothing, or the status of a row
that was not Delete becomes Delete and no other column changes. -/
def softDeleted (a b : Minion) : Prop :=
  b = a ∨ (a.status ≠ MinionStatus.MSDelete ∧ b = { a with status := MinionStatus.MSDelete })

/-- The number of rows whose status differs between two versions of the minion
table, the rows being matched by position. -/
def statusChanges (old new : List Minion) : Nat :=
  ((old.zip new).filter (fun p => p.1.status != p.2.status)).length

/-! ## Upgrade, Command, Unload -/

/-- The method `minionService.Upgrade`. -/
def Upgrade (fault : Option Err) (s : Store) (mid : Int) (semver : String) : Outcome :=
  match First fault s mid with
  | .error e => ⟨some e, s, []⟩
  | .ok mon =>
    if mon.status = MinionStatus.MSDelete then ⟨some Err.ErrNodeStatus, s, []⟩
    else ⟨none, s, [Call.pushUpgrade mon.brokerID mon.id semver]⟩

/-- The method `minionService.Command`. -/
def Command (fault : Option Err) (s : Store) (mid : Int) (cmd : String) : Outcome :=
  match First fault s mid with
  | .error e => ⟨some e, s, []⟩
  | .ok mon =>
    let status := mon.status
    if status = MinionStatus.MSDelete ∨ status = MinionStatus.MSInactive then
      ⟨some Err.ErrNodeStatus, s, []⟩
    else ⟨none, s, [Call.pushCommand mon.brokerID mid cmd]⟩

/-- The errors the two storage statements of `Unload` return. -/
structure UnloadFaults where
  first : Option Err
  update : Option Err

/-- The statement `UPDATE minion SET unload = v WHERE id = mid`. -/
def setUnload (s : Store) (mid : Int) (v : Bool) : Store :=
  { s with minions := s.minions.map (fun m => if m.id == mid then { m with unload := v } else m) }

/-- The method `minionService.Unload`. -/
def Unload (f : UnloadFaults) (s : Store) (mid : Int) (unload : Bool) : Outcome :=
  match First f.first s mid with
  | .error e => ⟨some e, s, []⟩
  | .ok mon =>
    let status := mon.status
    if status = MinionStatus.MSDelete ∨ status = MinionStatus.MSInactive then
      ⟨some Err.ErrNodeStatus, s, []⟩
    else if unload = mon.unload then ⟨none, s, []⟩
    else
      match f.update with
      | some e => ⟨some e, s, []⟩
      | none => ⟨none, setUnload s mid unload, [Call.pushTaskSync mon.brokerID mid mon.inet]⟩

/-! ## The pusher (`bridge/push/push.go`) -/

/-- The operation codes the pusher passes to the hub (`accord.FP...`, declared
outside this repository); one per operation of the pusher. -/
inductive Opcode where
  | FPTaskTable
  | FPTaskSync
  | FPTaskLoad
  | FPStartup
  | FPUpgrade
  | FPCommand
  deriving DecidableEq, Repr

/-- The request bodies the pusher builds for the three task operations. -/
inductive Payload where
  | TaskTable (taskID : Int)
  | TaskSyncRequest (minionID : Int) (inet : String)
  | TaskLoadRequest (minionID substanceID : Int) (inet : String)
  deriving DecidableEq, Repr

/-- A call on the hub (`linkhub.Huber`). -/
inductive HubCall where
  | Multicast (bids : List Int) (op : Opcode) (req : Payload)
  | Oneway (bid : Int) (op : Opcode) (req : Payload)
  deriving DecidableEq, Repr

/-- One result of a multicast, as `TaskTable` reads it: `ft.BrokerID()` and
`ft.Error()` (`none` is a nil error, `some msg` an error whose `Error()` is `msg`). -/
structure ErrorFuture where
  brokerID : Int
  err : Option String
  deriving DecidableEq, Repr

/-- A row of the substance_task table, the task record keyed by (task, relay). -/
structure SubstanceTask where
  taskID : Int
  brokerID : Int
  executed : Bool
  failed : Bool
  reason : String
  deriving DecidableEq, Repr

/-- The statement `UPDATE substance_task SET executed = true, reason = msg, failed = true
WHERE task_id = tid AND broker_id = bid`. -/
def updateTask (tasks : List SubstanceTask) (tid bid : Int) (msg : String) :
    List SubstanceTask :=
  tasks.map (fun r =>
    if r.taskID == tid && r.brokerID == bid
    then { r with executed := true, reason := msg, failed := true } else r)

/-- The loop `for ft := range ret` of `TaskTable`; `i` is the position of the next
result. A result without error is skipped; for a result with an error the update is
run and its own error discarded (`_, _ = ...`): an update that fails changes no row. -/
def taskTableLoop (fails : Nat → Bool) (tid : Int) :
    Nat → List ErrorFuture → List SubstanceTask → List SubstanceTask
  | _, [], tasks => tasks
  | i, ft :: rest, tasks =>
    match ft.err with
    | none => taskTableLoop fails tid (i + 1) rest tasks
    | some msg =>
      let tasks1 := if fails i = true then tasks else updateTask tasks tid ft.brokerID msg
      taskTableLoop fails tid (i + 1) rest tasks1

/-- The method `pushImpl.TaskTable`. `multicast` is the hub's `Multicast`, which
answers with the sequence of results; the method returns nothing, the model gives the
hub calls issued and the task table it leaves. -/
def TaskTable (multicast : List Int → Opcode → Payload → List ErrorFuture)
    (fails : Nat → Bool) (tasks : List SubstanceTask) (bids : List Int) (tid : Int) :
    List HubCall × List SubstanceTask :=
  let req := Payload.TaskTable tid
  let ret := multicast bids Opcode.FPTaskTable req
  ([HubCall.Multicast bids Opcode.FPTaskTable req], taskTableLoop fails tid 0 ret tasks)

/-- What a fire-and-forget method of the pusher leaves: the error it hands back to
its caller (the Go methods have no result, so there is never one) and the hub calls. -/
structure PushResult where
  err : Option String
  calls : List HubCall
  deriving DecidableEq, Repr

/-- The method `pushImpl.TaskSync`; `onewayErr` is what `hub.Oneway` returns, which
the method discards. -/
def TaskSync (onewayErr : Option String) (bid mid : Int) (inet : String) : PushResult :=
  if bid = 0 ∨ mid = 0 ∨ inet = "" then ⟨none, []⟩
  else
    let req := Payload.TaskSyncRequest mid inet
    let _ := onewayErr
    ⟨none, [HubCall.Oneway bid Opcode.FPTaskSync req]⟩

/-- The method `pushImpl.TaskDiff`; `onewayErr` is what `hub.Oneway` returns, which
the method discards. -/
def TaskDiff (onewayErr : Option String) (bid mid sid : Int) (inet : String) : PushResult :=
  if bid = 0 ∨ mid = 0 ∨ sid = 0 ∨ inet = "" then ⟨none, []⟩
  else
    let req := Payload.TaskLoadRequest mid sid inet
    let _ := onewayErr
    ⟨none, [HubCall.Oneway bid Opcode.FPTaskLoad req]⟩

/-- The message of the last result in `results` that is an error of relay `bid`. -/
def lastError : List ErrorFuture → Int → Option String
  | [], _ => none
  | ft :: rest, bid =>
    match lastError rest bid with
    | some msg => some msg
    | none => if ft.brokerID = bid then ft.err else none

/-- The record `TaskTable` writes for a failed relay. -/
def markFailed (r : SubstanceTask) (msg : String) : SubstanceTask :=
  { r with executed := true, reason := msg, failed := true }

/-- The invariant of a task table: a failed record has a reason. -/
def TaskInv (tasks : List SubstanceTask) : Prop :=
  ∀ r ∈ tasks, r.failed = true → r.reason ≠ ""

/-- The task tables `TaskTable` calls can lead to from `t0`, for a given hub. -/
inductive TaskReach (multicast : List Int → Opcode → Payload → List ErrorFuture)
    (t0 : List SubstanceTask) : List SubstanceTask → Prop where
  | start : TaskReach multicast t0 t0
  | call (t : List SubstanceTask) (fails : Nat → Bool) (bids : List Int) (tid : Int) :
      TaskReach multicast t0 t →
      TaskReach multicast t0 (TaskTable multicast fails t bids tid).2

/-- The ids a select of `Delete` matches, before ordering and limit: the distinct
node ids of the joined rows that satisfy the WHERE clause of the statement. -/
def matchIds (whr : Minion → Option MinionTag → Bool) (s : Store) : List Int :=
  (((joinedRows s).filter (fun r => whr r.1 r.2)).map (fun r => r.1.id)).dedup

/-- The like `minion_tag.tag = v` on a row of the join. -/
def tagIs (v : String) : Minion → Option MinionTag → Bool :=
  fun _ t =>
    match t with
    | some x => x.tag == v
    | none => false

/-- No node is newly in status Delete: a row of the new table in status Delete has the
id of a row of the old table that was in status Delete. -/
def NoNewDelete (old new : List Minion) : Prop :=
  ∀ m ∈ new, m.status = MinionStatus.MSDelete →
    ∃ m0 ∈ old, m0.id = m.id ∧ m0.status = MinionStatus.MSDelete

/-- No node row is removed: every id of the old table is an id of the new table. -/
def NoRowRemoved (old new : List Minion) : Prop :=
  ∀ m ∈ old, ∃ m2 ∈ new, m2.id = m.id

/-! ## Sample stores -/

/-- A node row used in the examples. -/
def sampleNode (id : Int) (inet : String) (st : MinionStatus) : Minion :=
  { id := id, inet := inet, goos := "linux", arch := "amd64", status := st,
    unload := false, brokerID := 7 }

/-- Two nodes that share the tag "x"; node 1 is marked Delete, node 2 is Online. -/
def sampleStore : Store :=
  { minions := [sampleNode 1 "10.0.0.1" .MSDelete, sampleNode 2 "10.0.0.2" .MSOnline],
    tags := [⟨"x", 1, .TkEphemeral⟩, ⟨"10.0.0.1", 1, .TkLifelong⟩, ⟨"x", 2, .TkEphemeral⟩],
    substances := [⟨5, 1⟩, ⟨6, 2⟩],
    effects := [⟨1, "x", 5⟩, ⟨2, "10.0.0.1", 6⟩],
    derived := [⟨.Event, 1, 0⟩, ⟨.Risk, 2, 0⟩] }

/-- The IPv4 address `a.b.c.d` in the 16-byte form `net.IPv4` builds. -/
def IPv4 (a b c d : Nat) : IP :=
  [0, 0, 0, 0, 0, 0, 0, 0, 0, 0, 255, 255, a, b, c, d]

/-- A `net` library for the examples: it knows four address texts, and treats
addresses as Go does on them (127.0.0.0/8 is loopback, 0.0.0.0 is unspecified). -/
def sampleNet : NetLib :=
  { ParseIP := fun t =>
      if t = "127.0.0.1" then IPv4 127 0 0 1
      else if t = "0.0.0.0" then IPv4 0 0 0 0
      else if t = "255.255.255.255" then IPv4 255 255 255 255
      else if t = "10.0.0.1" then IPv4 10 0 0 1
      else if t = "10.0.0.9" then IPv4 10 0 0 9
      else [],
    IsLoopback := fun ip => ip.take 13 == [0, 0, 0, 0, 0, 0, 0, 0, 0, 0, 255, 255, 127],
    IsUnspecified := fun ip => ip == IPv4 0 0 0 0,
    Equal := fun a b => a == b,
    IPv4bcast := IPv4 255 255 255 255,
    String := fun ip =>
      if ip = IPv4 10 0 0 1 then "10.0.0.1"
      else if ip = IPv4 10 0 0 9 then "10.0.0.9"
      else "?" }

/-- Nodes 1 and 2 are both marked Delete and both carry the tag "x"; node 3 is
Online and carries "y". One effect is bound to each tag value. -/
def sharedTagStore : Store :=
  { minions := [sampleNode 1 "10.0.0.1" .MSDelete, sampleNode 2 "10.0.0.2" .MSDelete,
                sampleNode 3 "10.0.0.3" .MSOnline],
    tags := [⟨"x", 1, .TkEphemeral⟩, ⟨"10.0.0.1", 1, .TkLifelong⟩, ⟨"x", 2, .TkEphemeral⟩,
             ⟨"y", 3, .TkEphemeral⟩],
    substances := [⟨5, 1⟩, ⟨6, 3⟩],
    effects := [⟨1, "x", 5⟩, ⟨2, "y", 6⟩, ⟨3, "10.0.0.1", 7⟩],
    derived := [⟨.Event, 1, 0⟩, ⟨.Risk, 3, 0⟩] }

/-- One node in each status: 1 Delete, 2 Online, 3 Offline, 4 Inactive. -/
def fleetStore : Store :=
  { minions := [sampleNode 1 "10.0.0.1" .MSDelete, sampleNode 2 "10.0.0.2" .MSOnline,
                sampleNode 3 "10.0.0.3" .MSOffline, sampleNode 4 "10.0.0.4" .MSInactive],
    tags := [⟨"10.0.0.2", 2, .TkLifelong⟩],
    substances := [],
    effects := [],
    derived := [] }

/-- No storage statement of `Create` fails; the new row gets id 3. -/
def sampleCreateFaults : CreateFaults :=
  { count := none, create := none, newID := 3, tagCreate := none }

/-- The tag insert of `Create` fails, every other statement succeeds. -/
def tagInsertFails : CreateFaults :=
  { count := none, create := none, newID := 3, tagCreate := some (Err.db 1) }

/-- The spec's multicast example: relay 1 answers, relay 2 is not connected, relay 3
times out. -/
def sampleResults : List ErrorFuture :=
  [⟨1, none⟩, ⟨2, some "not connected"⟩, ⟨3, some "timeout"⟩]

/-- A hub that answers every multicast with `sampleResults`. -/
def sampleHub : List Int → Opcode → Payload → List ErrorFuture :=
  fun _ _ _ => sampleResults

/-- A hub whose relay 2 fails with an error whose message is empty. -/
def silentHub : List Int → Opcode → Payload → List ErrorFuture :=
  fun _ _ _ => [⟨2, some ""⟩]

/-- The records of task 9 for relays 1, 2, 3 and one record of task 8. -/
def sampleTasks : List SubstanceTask :=
  [⟨9, 1, false, false, ""⟩, ⟨9, 2, false, false, ""⟩, ⟨9, 3, false, false, ""⟩,
   ⟨8, 2, true, false, ""⟩]

/-- The still-referenced-tags query of `Drop` fails, every other statement succeeds. -/
def afterScanFails : DropFaults :=
  { DropFaults.none with afterScan := some (Err.db 1) }

/-- The transaction of `Drop` fails at its commit, every other statement succeeds. -/
def commitFails : DropFaults :=
  { DropFaults.none with txCommit := some (Err.db 2) }

/-- No storage statement of `Delete` fails. -/
def sampleDeleteFaults : DeleteFaults :=
  { scan := fun _ => none, update := fun _ => false }

/-! ## Theorems -/

/-- The best-effort deletes touch the derived table only (any list of statements). -/
theorem secondaryFold_frame (fails : Nat → Bool) (id : Int) (l : List (Nat × DerivedTable))
    (s : Store) :
    let r := l.foldl (fun acc it => if fails it.1 then acc else deleteDerived acc it.2 id) s
    r.minions = s.minions ∧ r.tags = s.tags ∧ r.substances = s.substances ∧
      r.effects = s.effects := by
  induction l generalizing s with
  | nil => simp
  | cons a l ih =>
    simp only [List.foldl_cons]
    by_cases h : fails a.1 = true
    · simpa [h] using ih s
    · have := ih (deleteDerived s a.2 id)
      simpa [h, deleteDerived] using this

/-- The best-effort deletes of `Drop` touch the derived table only. -/
theorem secondaryCleanup_frame (fails : Nat → Bool) (s : Store) (id : Int) :
    (secondaryCleanup fails s id).minions = s.minions ∧
    (secondaryCleanup fails s id).tags = s.tags ∧
    (secondaryCleanup fails s id).substances = s.substances ∧
    (secondaryCleanup fails s id).effects = s.effects :=
  secondaryFold_frame fails id _ s

/-- The lookup returns a row exactly when it does not fail and the row is found. -/
theorem First_ok_iff (fault : Option Err) (s : Store) (id : Int) (mon : Minion) :
    First fault s id = .ok mon ↔
      fault = none ∧ s.minions.find? (fun m => m.id == id) = some mon := by
  unfold First
  cases fault with
  | some e => simp
  | none =>
    cases h : s.minions.find? (fun m => m.id == id) with
    | none => simp
    | some m => simp

/-- The tag values a node holds. -/
theorem mem_tagsOf (s : Store) (id : Int) (x : String) :
    x ∈ tagsOf s id ↔ ∃ t ∈ s.tags, t.minionID = id ∧ t.tag = x := by
  simp [tagsOf, and_assoc]

/-- The values among `tags` that some tag row of the store still carries. -/
theorem mem_tagsStillUsed (s : Store) (tags : List String) (x : String) :
    x ∈ tagsStillUsed s tags ↔ x ∈ tags ∧ ∃ t ∈ s.tags, t.tag = x := by
  simp only [tagsStillUsed, List.mem_dedup, List.mem_map, List.mem_filter, decide_eq_true_eq]
  constructor
  · rintro ⟨t, ⟨ht, hin⟩, rfl⟩
    exact ⟨hin, t, ht, rfl⟩
  · rintro ⟨hin, t, ht, rfl⟩
    exact ⟨t, ⟨ht, hin⟩, rfl⟩

/-- The wild tags are the held values that are no longer carried. -/
theorem mem_wildTagsOf (tags afterTags : List String) (x : String) :
    x ∈ wildTagsOf tags afterTags ↔ x ∈ tags ∧ x ∉ afterTags := by
  simp [wildTagsOf]

/-- The wild-tag pass touches the effect table only. -/
theorem wildTagPass_frame (f : DropFaults) (tags : List String) (s2 : Store) :
    (wildTagPass f tags s2).store.minions = s2.minions ∧
    (wildTagPass f tags s2).store.tags = s2.tags ∧
    (wildTagPass f tags s2).store.substances = s2.substances ∧
    (wildTagPass f tags s2).store.derived = s2.derived := by
  unfold wildTagPass
  split_ifs
  · simp
  · split
    · simp
    · simp only
      split_ifs
      · simp
      · split <;> simp

/-- A wild-tag pass that returns no error has deleted exactly the effects bound to a
wild tag. -/
theorem wildTagPass_effects (f : DropFaults) (tags : List String) (s2 : Store)
    (hok : (wildTagPass f tags s2).err = none) :
    (wildTagPass f tags s2).store.effects =
      s2.effects.filter
        (fun e => !decide (e.tag ∈ wildTagsOf tags (tagsStillUsed s2 tags))) := by
  by_cases h0 : tags.length = 0
  · have : tags = [] := List.length_eq_zero.mp h0
    simp [wildTagPass, this, wildTagsOf]
  · cases ha : f.afterScan with
    | some e => simp [wildTagPass, h0, ha] at hok
    | none =>
      by_cases h1 : (wildTagsOf tags (tagsStillUsed s2 tags)).length = 0
      · have h1' : wildTagsOf tags (tagsStillUsed s2 tags) = [] := List.length_eq_zero.mp h1
        simp [wildTagPass, h0, ha, h1']
      · cases he : f.effDelete with
        | some e => simp [wildTagPass, h0, ha, h1, he] at hok
        | none => simp [wildTagPass, h0, ha, h1, he]
/-- A committed transaction has filtered the rows of the node out of the three
primary tables and touched nothing else. -/
theorem dropTx_ok (f : DropFaults) (s s1 : Store) (id : Int) (h : dropTx f s id = .ok s1) :
    s1.minions = s.minions.filter (fun m => m.id != id) ∧
    s1.tags = s.tags.filter (fun t => t.minionID != id) ∧
    s1.substances = s.substances.filter (fun b => b.minionID != id) ∧
    s1.effects = s.effects ∧ s1.derived = s.derived := by
  unfold dropTx at h
  cases h1 : f.txTag <;> simp only [h1] at h <;> try cases h
  cases h2 : f.txSub <;> simp only [h2] at h <;> try cases h
  cases h3 : f.txMinion <;> simp only [h3] at h <;> try cases h
  cases h4 : f.txCommit <;> simp only [h4] at h <;> try cases h
  simp

/-- The transaction commits when none of its four steps fails. -/
theorem dropTx_of_no_fault (f : DropFaults) (s : Store) (id : Int)
    (htx : f.txTag = none ∧ f.txSub = none ∧ f.txMinion = none ∧ f.txCommit = none) :
    ∃ s1, dropTx f s id = .ok s1 := by
  obtain ⟨h1, h2, h3, h4⟩ := htx
  simp [dropTx, h1, h2, h3, h4]

/-- Past the status gate, the tag query and the transaction, `Drop` is the wild-tag
pass over the cleaned store. -/
theorem Drop_committed (f : DropFaults) (s s1 : Store) (id : Int) (mon : Minion)
    (hfind : First f.first s id = .ok mon) (hst : mon.status = MinionStatus.MSDelete)
    (hscan : f.tagScan = none) (htx : dropTx f s id = .ok s1) :
    Drop f s id = wildTagPass f (tagsOf s id) (secondaryCleanup f.secondary s1 id) := by
  simp [Drop, hfind, hst, hscan, htx]

/-- A `Drop` that returns no error found the node in status Delete, read its tags
and committed its transaction. -/
theorem Drop_success_inv (f : DropFaults) (s : Store) (id : Int)
    (hok : (Drop f s id).err = none) :
    ∃ mon s1, First f.first s id = .ok mon ∧ mon.status = MinionStatus.MSDelete ∧
      f.tagScan = none ∧ dropTx f s id = .ok s1 := by
  unfold Drop at hok
  cases hF : First f.first s id with
  | error e => simp [hF] at hok
  | ok mon =>
    by_cases hst : mon.status = MinionStatus.MSDelete
    · cases hs : f.tagScan with
      | some e => simp [hF, hst, hs] at hok
      | none =>
        cases ht : dropTx f s id with
        | error e => simp [hF, hst, hs, ht] at hok
        | ok s1 => exact ⟨mon, s1, rfl, hst, rfl, rfl⟩
    · simp [hF, hst] at hok
/-- The filter test "not both" on two decidable propositions. -/
theorem not_both_decide (P Q : Prop) [Decidable P] [Decidable Q] :
    (!(decide P && decide Q)) = true ↔ ¬ (P ∧ Q) := by
  by_cases hP : P <;> by_cases hQ : Q <;> simp [hP, hQ]

/-- What a successful `Drop` does to the minion, tag and effect tables. -/
theorem Drop_success_tables (f : DropFaults) (s : Store) (id : Int)
    (hok : (Drop f s id).err = none) :
    (Drop f s id).store.minions = s.minions.filter (fun m => m.id != id) ∧
    (Drop f s id).store.tags = s.tags.filter (fun t => t.minionID != id) ∧
    (Drop f s id).store.effects = s.effects.filter (fun e =>
      !(decide (∃ t ∈ s.tags, t.minionID = id ∧ t.tag = e.tag) &&
        decide (∀ t ∈ (Drop f s id).store.tags, t.tag ≠ e.tag))) := by
  obtain ⟨mon, s1, hF, hst, hs, ht⟩ := Drop_success_inv f s id hok
  have hD := Drop_committed f s s1 id mon hF hst hs ht
  obtain ⟨m1, t1, -, e1, -⟩ := dropTx_ok f s s1 id ht
  obtain ⟨m2, t2, -, e2⟩ := secondaryCleanup_frame f.secondary s1 id
  obtain ⟨m3, t3, -, -⟩ := wildTagPass_frame f (tagsOf s id) (secondaryCleanup f.secondary s1 id)
  rw [hD] at hok ⊢
  refine ⟨by rw [m3, m2, m1], ?_⟩
  have htags : (wildTagPass f (tagsOf s id) (secondaryCleanup f.secondary s1 id)).store.tags
      = s.tags.filter (fun t => t.minionID != id) := by rw [t3, t2, t1]
  refine ⟨htags, ?_⟩
  rw [wildTagPass_effects f _ _ hok, e2, e1]
  apply List.filter_congr
  intro e _
  have hw := mem_wildTagsOf (tagsOf s id)
    (tagsStillUsed (secondaryCleanup f.secondary s1 id) (tagsOf s id)) e.tag
  have hu := mem_tagsStillUsed (secondaryCleanup f.secondary s1 id) (tagsOf s id) e.tag
  have hm := mem_tagsOf s id e.tag
  rw [t3]
  by_cases hheld : ∃ t ∈ s.tags, t.minionID = id ∧ t.tag = e.tag
  · by_cases hused : ∃ t ∈ (secondaryCleanup f.secondary s1 id).tags, t.tag = e.tag
    · have hnw : e.tag ∉ wildTagsOf (tagsOf s id)
          (tagsStillUsed (secondaryCleanup f.secondary s1 id) (tagsOf s id)) := by
        rw [hw, hu]; exact fun h => h.2 ⟨hm.mpr hheld, hused⟩
      have hnall : ¬ ∀ t ∈ (secondaryCleanup f.secondary s1 id).tags, t.tag ≠ e.tag := by
        obtain ⟨t, ht, hte⟩ := hused
        exact fun h => h t ht hte
      simp [hnw, hnall]
    · have hin : e.tag ∈ wildTagsOf (tagsOf s id)
          (tagsStillUsed (secondaryCleanup f.secondary s1 id) (tagsOf s id)) := by
        rw [hw, hu]; exact ⟨hm.mpr hheld, fun h => hused h.2⟩
      have hall : ∀ t ∈ (secondaryCleanup f.secondary s1 id).tags, t.tag ≠ e.tag :=
        fun t ht hte => hused ⟨t, ht, hte⟩
      simp only [hin, decide_True, Bool.not_true, hheld, Bool.true_and]
      simp only [decide_eq_true hall, Bool.not_true]
  · have hnw : e.tag ∉ wildTagsOf (tagsOf s id)
        (tagsStillUsed (secondaryCleanup f.secondary s1 id) (tagsOf s id)) := by
      rw [hw]; exact fun h => hheld (hm.mp h.1)
    simp [hnw, hheld]

/-! ### C1: the status gate of Drop -/

/-- C1. When the lookup of `Drop(id)` returns a node whose status is not Delete
(Offline, Online or Inactive), `Drop` returns `ErrDeleteFailed`, issues no call and
leaves the store as it was (no tag, substance, node, derived or effect row is
removed). Whatever the storage layer does, a `Drop` of such a node never returns
success and never changes the store: only a node in status Delete gets past the gate. -/
theorem Drop_rejects_undeleted (f : DropFaults) (s : Store) (id : Int) (mon : Minion)
    (hfind : First f.first s id = .ok mon) (hst : mon.status ≠ MinionStatus.MSDelete) :
    Drop f s id = ⟨some Err.ErrDeleteFailed, s, []⟩ ∧
    ∀ g : DropFaults, (Drop g s id).store = s ∧ (Drop g s id).err ≠ none := by
  have hrow := ((First_ok_iff f.first s id mon).mp hfind).2
  refine ⟨by simp [Drop, hfind, hst], fun g => ?_⟩
  cases hg : g.first with
  | some e => simp [Drop, First, hg]
  | none => simp [Drop, First, hg, hrow, hst]

/-- C1 at a concrete store: node 2 is Online, so dropping it is refused. -/
theorem Drop_rejects_undeleted_witness :
    First DropFaults.none.first sampleStore 2 = .ok (sampleNode 2 "10.0.0.2" .MSOnline) ∧
    Drop DropFaults.none sampleStore 2 = ⟨some Err.ErrDeleteFailed, sampleStore, []⟩ :=
  ⟨rfl, (Drop_rejects_undeleted DropFaults.none sampleStore 2
      (sampleNode 2 "10.0.0.2" .MSOnline) rfl (by decide)).1⟩

/-! ### C2: the primary rows of a dropped node -/

/-- C2. For a node in status Delete, when the tag query and the primary transaction
succeed, the store after `Drop(id)` holds no minion row with that id, no tag row and
no substance row whose MinionID is that id, and the minion, tag and substance tables
are otherwise unchanged: each is the old table without the rows of that node. -/
theorem Drop_removes_primary_rows (f : DropFaults) (s : Store) (id : Int) (mon : Minion)
    (hfind : First f.first s id = .ok mon) (hst : mon.status = MinionStatus.MSDelete)
    (hscan : f.tagScan = none)
    (htx : f.txTag = none ∧ f.txSub = none ∧ f.txMinion = none ∧ f.txCommit = none) :
    (∀ m ∈ (Drop f s id).store.minions, m.id ≠ id) ∧
    (∀ t ∈ (Drop f s id).store.tags, t.minionID ≠ id) ∧
    (∀ b ∈ (Drop f s id).store.substances, b.minionID ≠ id) ∧
    (Drop f s id).store.minions = s.minions.filter (fun m => m.id != id) ∧
    (Drop f s id).store.tags = s.tags.filter (fun t => t.minionID != id) ∧
    (Drop f s id).store.substances = s.substances.filter (fun b => b.minionID != id) := by
  obtain ⟨s1, ht⟩ := dropTx_of_no_fault f s id htx
  obtain ⟨m1, t1, b1, -, -⟩ := dropTx_ok f s s1 id ht
  obtain ⟨m2, t2, b2, -⟩ := secondaryCleanup_frame f.secondary s1 id
  obtain ⟨m3, t3, b3, -⟩ :=
    wildTagPass_frame f (tagsOf s id) (secondaryCleanup f.secondary s1 id)
  rw [Drop_committed f s s1 id mon hfind hst hscan ht, m3, t3, b3, m2, t2, b2, m1, t1, b1]
  refine ⟨?_, ?_, ?_, rfl, rfl, rfl⟩
  · intro m hm
    simpa using (List.mem_filter.mp hm).2
  · intro t h
    simpa using (List.mem_filter.mp h).2
  · intro b hb
    simpa using (List.mem_filter.mp hb).2

/-- C2 at a concrete store: dropping node 1 leaves the rows of node 2 only. -/
theorem Drop_removes_primary_rows_witness :
    (Drop DropFaults.none sampleStore 1).store.minions = [sampleNode 2 "10.0.0.2" .MSOnline] ∧
    (Drop DropFaults.none sampleStore 1).store.tags = [⟨"x", 2, .TkEphemeral⟩] ∧
    (Drop DropFaults.none sampleStore 1).store.substances = [⟨6, 2⟩] :=
  (Drop_removes_primary_rows DropFaults.none sampleStore 1 (sampleNode 1 "10.0.0.1" .MSDelete)
    rfl rfl rfl ⟨rfl, rfl, rfl, rfl⟩).2.2.2

/-! ### C3: wild-tag collection -/

/-- C3. After a `Drop(id)` that returns success, the effect table is the old one
without the rows whose tag value the dropped node held and that no remaining tag row
carries: an effect row is deleted if and only if its tag was held by the node and is
carried by no tag row afterwards, every other effect row is unchanged. If another node
`B` also holds "x", every effect bound to "x" survives the drop of `A = id`; when `A`
and `B` are the only holders of "x", dropping `A` and then `B` removes every effect
bound to "x". If the node held no tag, or every tag it held is still carried, no
effect row is deleted. -/
theorem Drop_wild_tag_collection (f : DropFaults) (s : Store) (id : Int)
    (hok : (Drop f s id).err = none) :
    (Drop f s id).store.effects = s.effects.filter (fun e =>
      !(decide (∃ t ∈ s.tags, t.minionID = id ∧ t.tag = e.tag) &&
        decide (∀ t ∈ (Drop f s id).store.tags, t.tag ≠ e.tag))) ∧
    (∀ e ∈ s.effects, e ∉ (Drop f s id).store.effects ↔
      ((∃ t ∈ s.tags, t.minionID = id ∧ t.tag = e.tag) ∧
        ∀ t ∈ (Drop f s id).store.tags, t.tag ≠ e.tag)) ∧
    (∀ (B : Int) (x : String), B ≠ id → (∃ t ∈ s.tags, t.minionID = B ∧ t.tag = x) →
      ∀ e ∈ s.effects, e.tag = x → e ∈ (Drop f s id).store.effects) ∧
    (∀ (g : DropFaults) (B : Int) (x : String), (Drop g (Drop f s id).store B).err = none →
      (∃ t ∈ s.tags, t.minionID = B ∧ t.tag = x) →
      (∀ t ∈ s.tags, t.tag = x → t.minionID = id ∨ t.minionID = B) →
      ∀ e ∈ (Drop g (Drop f s id).store B).store.effects, e.tag ≠ x) ∧
    ((tagsOf s id = [] ∨ ∀ x ∈ tagsOf s id, ∃ t ∈ (Drop f s id).store.tags, t.tag = x) →
      (Drop f s id).store.effects = s.effects) := by
  obtain ⟨hmin, htags, heff⟩ := Drop_success_tables f s id hok
  have hmem : ∀ e ∈ s.effects, e ∉ (Drop f s id).store.effects ↔
      ((∃ t ∈ s.tags, t.minionID = id ∧ t.tag = e.tag) ∧
        ∀ t ∈ (Drop f s id).store.tags, t.tag ≠ e.tag) := by
    intro e he
    rw [heff, List.mem_filter, not_both_decide]
    constructor
    · intro h
      by_contra hc
      exact h ⟨he, hc⟩
    · intro h hc
      exact hc.2 h
  refine ⟨heff, hmem, ?_, ?_, ?_⟩
  · intro B x hB hBx e he hex
    by_contra hne
    obtain ⟨-, hall⟩ := (hmem e he).mp hne
    obtain ⟨t, ht, htB, htx⟩ := hBx
    refine hall t ?_ (htx.trans hex.symm)
    rw [htags, List.mem_filter]
    exact ⟨ht, by simpa [htB] using hB⟩
  · intro g B x hok2 hBx honly e he hex
    obtain ⟨-, htags2, heff2⟩ := Drop_success_tables g (Drop f s id).store B hok2
    have hBne : B ≠ id := by
      intro hEq
      obtain ⟨mon2, s1, hF2, -, -, -⟩ := Drop_success_inv g (Drop f s id).store B hok2
      have hrow := ((First_ok_iff _ _ _ _).mp hF2).2
      have hmem2 := List.mem_of_find?_eq_some hrow
      have hid : mon2.id = B := by simpa using List.find?_some hrow
      rw [hmin, List.mem_filter] at hmem2
      simpa [hid, hEq] using hmem2.2
    rw [heff2, List.mem_filter] at he
    obtain ⟨-, hkeep⟩ := he
    obtain ⟨t, ht, htB, htx⟩ := hBx
    have hheld2 : ∃ t ∈ (Drop f s id).store.tags, t.minionID = B ∧ t.tag = e.tag := by
      refine ⟨t, ?_, htB, htx.trans hex.symm⟩
      rw [htags, List.mem_filter]
      exact ⟨ht, by simpa [htB] using hBne⟩
    have hgone : ∀ t ∈ (Drop g (Drop f s id).store B).store.tags, t.tag ≠ e.tag := by
      intro u hu hue
      rw [htags2, List.mem_filter, htags, List.mem_filter] at hu
      obtain ⟨⟨hus, hu1⟩, hu2⟩ := hu
      rcases honly u hus (hue.trans hex) with h | h
      · simp [h] at hu1
      · simp [h] at hu2
    rw [not_both_decide] at hkeep
    exact hkeep ⟨hheld2, hgone⟩
  · intro h
    rw [heff]
    apply List.filter_eq_self.mpr
    intro e _
    rw [not_both_decide]
    rintro ⟨hheld, hall⟩
    rcases h with h | h
    · have := (mem_tagsOf s id e.tag).mpr hheld
      rw [h] at this
      exact List.not_mem_nil _ this
    · obtain ⟨t, ht, hte⟩ := h e.tag ((mem_tagsOf s id e.tag).mpr hheld)
      exact hall t ht hte

/-- C3 at a concrete store: nodes 1 and 2 share "x". Dropping node 1 keeps the
effect bound to "x"; dropping node 2 afterwards leaves no effect bound to "x". -/
theorem Drop_wild_tag_collection_witness :
    (Drop DropFaults.none sharedTagStore 1).err = none ∧
    (∀ e ∈ sharedTagStore.effects, e.tag = "x" →
      e ∈ (Drop DropFaults.none sharedTagStore 1).store.effects) ∧
    (∀ e ∈ (Drop DropFaults.none (Drop DropFaults.none sharedTagStore 1).store 2).store.effects,
      e.tag ≠ "x") :=
  ⟨by decide,
   (Drop_wild_tag_collection DropFaults.none sharedTagStore 1 (by decide)).2.2.1 2 "x"
      (by decide) (by decide),
   (Drop_wild_tag_collection DropFaults.none sharedTagStore 1 (by decide)).2.2.2.1
      DropFaults.none 2 "x" (by decide) (by decide) (by decide)⟩


/-- A `Create` that returns an error has changed nothing and called nobody. -/
theorem Create_error_frame (net : NetLib) (g : CreateFaults) (s : Store) (mc : MinionCreate)
    (herr : (Create net g s mc).err ≠ none) :
    (Create net g s mc).store = s ∧ (Create net g s mc).calls = [] := by
  by_cases h1 : (net.ParseIP mc.inet).length = 0 ∨ net.IsLoopback (net.ParseIP mc.inet) = true ∨
      net.IsUnspecified (net.ParseIP mc.inet) = true ∨
      net.Equal (net.ParseIP mc.inet) net.IPv4bcast = true
  · simp only [Create, if_pos h1, and_self]
  · by_cases h2 : g.count ≠ none ∨
        (s.minions.filter (fun m => m.inet == net.String (net.ParseIP mc.inet))).length ≠ 0
    · simp only [Create, if_neg h1, if_pos h2, and_self]
    · cases hc : g.create with
      | some e => simp only [Create, if_neg h1, if_neg h2, hc, and_self]
      | none =>
        simp only [Create, if_neg h1, if_neg h2, hc] at herr
        exact absurd rfl herr

/-- A `Create` that returns no error passed the address checks, found no row with
the address, inserted the node row, tried the tag insert and issued the fetch. -/
theorem Create_success_inv (net : NetLib) (g : CreateFaults) (s : Store) (mc : MinionCreate)
    (hok : (Create net g s mc).err = none) :
    (s.minions.filter (fun m => m.inet == net.String (net.ParseIP mc.inet))).length = 0 ∧
    (Create net g s mc).store.minions = s.minions ++
      [{ id := g.newID, inet := net.String (net.ParseIP mc.inet), goos := mc.goos,
         arch := mc.arch, status := MinionStatus.MSOffline, unload := false, brokerID := 0 }] ∧
    (Create net g s mc).store.tags =
      (match g.tagCreate with
       | some _ => s.tags
       | none => s.tags ++ createTags (net.String (net.ParseIP mc.inet)) mc g.newID) ∧
    (Create net g s mc).calls =
      [Call.cmdbFetchAndSave g.newID (net.String (net.ParseIP mc.inet))] := by
  by_cases h1 : (net.ParseIP mc.inet).length = 0 ∨ net.IsLoopback (net.ParseIP mc.inet) = true ∨
      net.IsUnspecified (net.ParseIP mc.inet) = true ∨
      net.Equal (net.ParseIP mc.inet) net.IPv4bcast = true
  · simp only [Create, if_pos h1] at hok
    cases hok
  · by_cases h2 : g.count ≠ none ∨
        (s.minions.filter (fun m => m.inet == net.String (net.ParseIP mc.inet))).length ≠ 0
    · simp only [Create, if_neg h1, if_pos h2] at hok
      cases hok
    · cases hc : g.create with
      | some e =>
        simp only [Create, if_neg h1, if_neg h2, hc] at hok
        cases hok
      | none =>
        have hcount : (s.minions.filter
            (fun m => m.inet == net.String (net.ParseIP mc.inet))).length = 0 := by
          by_contra hne
          exact h2 (Or.inr hne)
        refine ⟨hcount, ?_⟩
        cases ht : g.tagCreate with
        | some e => simp only [Create, if_neg h1, if_neg h2, hc, ht, and_self]
        | none => simp only [Create, if_neg h1, if_neg h2, hc, ht, and_self]

/-! ### C4: addresses refused by Create -/

/-- C4. When the address text does not parse (`net.ParseIP` returns nil), or parses
to a loopback address, to an unspecified address or to the IPv4 broadcast address,
`Create` returns `ErrInetAddress`, leaves the store as it was (no minion row, no tag
row) and issues no call (no inventory fetch). -/
theorem Create_rejects_bad_address (net : NetLib) (f : CreateFaults) (s : Store)
    (mc : MinionCreate)
    (hbad : (net.ParseIP mc.inet).length = 0 ∨ net.IsLoopback (net.ParseIP mc.inet) = true ∨
      net.IsUnspecified (net.ParseIP mc.inet) = true ∨
      net.Equal (net.ParseIP mc.inet) net.IPv4bcast = true) :
    Create net f s mc = ⟨some Err.ErrInetAddress, s, []⟩ := by
  unfold Create
  simp only [if_pos hbad]

/-- C4 at concrete inputs: a loopback address, the unspecified address, the broadcast
address and a text that is no address are all refused. -/
theorem Create_rejects_bad_address_witness :
    Create sampleNet sampleCreateFaults sampleStore ⟨"127.0.0.1", "linux", "amd64"⟩
      = ⟨some Err.ErrInetAddress, sampleStore, []⟩ ∧
    Create sampleNet sampleCreateFaults sampleStore ⟨"0.0.0.0", "linux", "amd64"⟩
      = ⟨some Err.ErrInetAddress, sampleStore, []⟩ ∧
    Create sampleNet sampleCreateFaults sampleStore ⟨"255.255.255.255", "linux", "amd64"⟩
      = ⟨some Err.ErrInetAddress, sampleStore, []⟩ ∧
    Create sampleNet sampleCreateFaults sampleStore ⟨"not an address", "linux", "amd64"⟩
      = ⟨some Err.ErrInetAddress, sampleStore, []⟩ :=
  ⟨Create_rejects_bad_address sampleNet sampleCreateFaults sampleStore _
      (Or.inr (Or.inl (by decide))),
   Create_rejects_bad_address sampleNet sampleCreateFaults sampleStore _
      (Or.inr (Or.inr (Or.inl (by decide)))),
   Create_rejects_bad_address sampleNet sampleCreateFaults sampleStore _
      (Or.inr (Or.inr (Or.inr (by decide)))),
   Create_rejects_bad_address sampleNet sampleCreateFaults sampleStore _
      (Or.inl (by decide))⟩

/-! ### C5: duplicate addresses -/

/-- C5. When the address is valid and its canonical text (`inet.String()`) is the
address of a minion row of the store, `Create` returns the address-exists error for
that text, leaves the store as it was (no duplicate minion row, no tag row) and
issues no call. Consequently, from a store in which no two minion rows share an
address, every `Create` leads to a store in which no two minion rows share one. -/
theorem Create_rejects_duplicate (net : NetLib) (f : CreateFaults) (s : Store)
    (mc : MinionCreate)
    (hvalid : ¬ ((net.ParseIP mc.inet).length = 0 ∨ net.IsLoopback (net.ParseIP mc.inet) = true ∨
      net.IsUnspecified (net.ParseIP mc.inet) = true ∨
      net.Equal (net.ParseIP mc.inet) net.IPv4bcast = true))
    (hheld : ∃ m ∈ s.minions, m.inet = net.String (net.ParseIP mc.inet)) :
    Create net f s mc = ⟨some (Err.ErrInetExist (net.String (net.ParseIP mc.inet))), s, []⟩ ∧
    ((s.minions.map (fun m => m.inet)).Nodup → ∀ (g : CreateFaults) (mc2 : MinionCreate),
      ((Create net g s mc2).store.minions.map (fun m => m.inet)).Nodup) := by
  constructor
  · obtain ⟨m, hm, hinet⟩ := hheld
    have hcount : (s.minions.filter
        (fun m => m.inet == net.String (net.ParseIP mc.inet))).length ≠ 0 := by
      intro h0
      have hnil := List.length_eq_zero.mp h0
      have : m ∈ s.minions.filter (fun m => m.inet == net.String (net.ParseIP mc.inet)) :=
        List.mem_filter.mpr ⟨hm, by simp [hinet]⟩
      rw [hnil] at this
      exact List.not_mem_nil _ this
    unfold Create
    simp only [if_neg hvalid, if_pos (Or.inr hcount : f.count ≠ none ∨ _)]
  · intro hnd g mc2
    by_cases herr : (Create net g s mc2).err = none
    · obtain ⟨hcount, hmin, -, -⟩ := Create_success_inv net g s mc2 herr
      have hnil := List.length_eq_zero.mp hcount
      have hfresh : net.String (net.ParseIP mc2.inet) ∉ s.minions.map (fun m => m.inet) := by
        intro hin
        obtain ⟨m, hm, hme⟩ := List.mem_map.mp hin
        have : m ∈ s.minions.filter
            (fun m => m.inet == net.String (net.ParseIP mc2.inet)) :=
          List.mem_filter.mpr ⟨hm, by simpa using hme⟩
        rw [hnil] at this
        exact List.not_mem_nil _ this
      rw [hmin, List.map_append, List.nodup_append]
      refine ⟨hnd, by simp, ?_⟩
      intro a ha hb
      simp only [List.map_cons, List.map_nil, List.mem_singleton] at hb
      exact hfresh (hb ▸ ha)
    · rw [(Create_error_frame net g s mc2 herr).1]
      exact hnd

/-- C5 at a concrete store: 10.0.0.1 is held by node 1, a second Create is refused. -/
theorem Create_rejects_duplicate_witness :
    Create sampleNet sampleCreateFaults sampleStore ⟨"10.0.0.1", "linux", "amd64"⟩
      = ⟨some (Err.ErrInetExist "10.0.0.1"), sampleStore, []⟩ :=
  (Create_rejects_duplicate sampleNet sampleCreateFaults sampleStore
    ⟨"10.0.0.1", "linux", "amd64"⟩ (by decide) (by decide)).1

/-! ### C6: the rows a successful Create inserts -/

/-- C6, as stated, fails: the Go code discards the error of the tag insert, so a
`Create("10.0.0.9", "linux", "amd64")` whose tag insert fails still returns success,
inserts the node row and creates no tag row at all. -/
theorem Create_three_tags_counterexample :
    (Create sampleNet tagInsertFails sampleStore ⟨"10.0.0.9", "linux", "amd64"⟩).err = none ∧
    (Create sampleNet tagInsertFails sampleStore ⟨"10.0.0.9", "linux", "amd64"⟩).store.minions
      = sampleStore.minions ++ [⟨3, "10.0.0.9", "linux", "amd64", .MSOffline, false, 0⟩] ∧
    (Create sampleNet tagInsertFails sampleStore ⟨"10.0.0.9", "linux", "amd64"⟩).store.tags
      = sampleStore.tags := by
  decide

/-- C6, amended. For every `Create` that returns success and whose tag insert
succeeds, exactly one node row is inserted, with status Offline and the canonical
address, and the tag rows inserted for it are, in order, the address, the OS when it
is not empty and the architecture when it is not empty, all Lifelong and all carrying
the id of the new node; with non-empty OS and architecture these are exactly three
rows. -/
theorem Create_inserts_node_and_tags (net : NetLib) (f : CreateFaults) (s : Store)
    (mc : MinionCreate) (hok : (Create net f s mc).err = none) (htag : f.tagCreate = none) :
    (Create net f s mc).store.minions = s.minions ++
      [{ id := f.newID, inet := net.String (net.ParseIP mc.inet), goos := mc.goos,
         arch := mc.arch, status := MinionStatus.MSOffline, unload := false, brokerID := 0 }] ∧
    (Create net f s mc).store.tags = s.tags ++
      ([⟨net.String (net.ParseIP mc.inet), f.newID, TagKind.TkLifelong⟩] ++
        (if mc.goos = "" then [] else [⟨mc.goos, f.newID, TagKind.TkLifelong⟩]) ++
        (if mc.arch = "" then [] else [⟨mc.arch, f.newID, TagKind.TkLifelong⟩])) ∧
    (mc.goos ≠ "" → mc.arch ≠ "" →
      (Create net f s mc).store.tags = s.tags ++
        [⟨net.String (net.ParseIP mc.inet), f.newID, TagKind.TkLifelong⟩,
         ⟨mc.goos, f.newID, TagKind.TkLifelong⟩, ⟨mc.arch, f.newID, TagKind.TkLifelong⟩]) := by
  obtain ⟨-, hmin, htags, -⟩ := Create_success_inv net f s mc hok
  rw [htag] at htags
  simp only at htags
  refine ⟨hmin, ?_, ?_⟩
  · rw [htags]
    by_cases ho : mc.goos = "" <;> by_cases ha : mc.arch = "" <;> simp [createTags, ho, ha]
  · intro ho ha
    rw [htags]
    simp [createTags, ho, ha]

/-- C6 amended, at a concrete input: three Lifelong tags for node 3. -/
theorem Create_inserts_node_and_tags_witness :
    (Create sampleNet sampleCreateFaults sampleStore ⟨"10.0.0.9", "linux", "amd64"⟩).store.tags
      = sampleStore.tags ++ [⟨"10.0.0.9", 3, .TkLifelong⟩, ⟨"linux", 3, .TkLifelong⟩,
          ⟨"amd64", 3, .TkLifelong⟩] :=
  (Create_inserts_node_and_tags sampleNet sampleCreateFaults sampleStore
    ⟨"10.0.0.9", "linux", "amd64"⟩ (by decide) rfl).2.2 (by decide) (by decide)


/-- The lookup returns a row with the id asked for. -/
theorem First_id (fault : Option Err) (s : Store) (id : Int) (mon : Minion)
    (h : First fault s id = .ok mon) : mon.id = id := by
  have hrow := ((First_ok_iff fault s id mon).mp h).2
  simpa using List.find?_some hrow

/-- After the flag of node `mid` was set, the lookup of `mid` returns the same row
with the new flag. -/
theorem First_setUnload (s : Store) (mid : Int) (v : Bool) (mon : Minion)
    (h : First none s mid = .ok mon) :
    First none (setUnload s mid v) mid = .ok { mon with unload := v } := by
  have hrow := ((First_ok_iff none s mid mon).mp h).2
  have hid := First_id none s mid mon h
  have hcomp : ((fun m : Minion => m.id == mid) ∘
      (fun m : Minion => if m.id == mid then { m with unload := v } else m))
      = (fun m : Minion => m.id == mid) := by
    funext m
    by_cases hm : m.id = mid <;> simp [hm]
  rw [First_ok_iff]
  refine ⟨rfl, ?_⟩
  simp only [setUnload, List.find?_map, hcomp, hrow, Option.map_some', hid, beq_self_eq_true,
    if_true]

/-! ### C7: the status gate of Command and Unload -/

/-- C7. When the lookup returns a node whose status is Delete or Inactive, `Command`
and `Unload` both return `ErrNodeStatus`, leave the store as it was (the unload flag
is not written) and issue no call to the pusher. -/
theorem Command_Unload_reject (fc : Option Err) (fu : UnloadFaults) (s : Store) (mid : Int)
    (mon : Minion) (cmd : String) (flag : Bool)
    (hc : First fc s mid = .ok mon) (hu : First fu.first s mid = .ok mon)
    (hst : mon.status = MinionStatus.MSDelete ∨ mon.status = MinionStatus.MSInactive) :
    Command fc s mid cmd = ⟨some Err.ErrNodeStatus, s, []⟩ ∧
    Unload fu s mid flag = ⟨some Err.ErrNodeStatus, s, []⟩ := by
  constructor
  · simp only [Command, hc, if_pos hst]
  · simp only [Unload, hu, if_pos hst]

/-- C7 at a concrete store: node 4 is Inactive, node 1 is marked Delete. -/
theorem Command_Unload_reject_witness :
    (Command none fleetStore 4 "ps" = ⟨some Err.ErrNodeStatus, fleetStore, []⟩ ∧
     Unload ⟨none, none⟩ fleetStore 4 true = ⟨some Err.ErrNodeStatus, fleetStore, []⟩) ∧
    (Command none fleetStore 1 "ps" = ⟨some Err.ErrNodeStatus, fleetStore, []⟩ ∧
     Unload ⟨none, none⟩ fleetStore 1 true = ⟨some Err.ErrNodeStatus, fleetStore, []⟩) :=
  ⟨Command_Unload_reject none ⟨none, none⟩ fleetStore 4 (sampleNode 4 "10.0.0.4" .MSInactive)
      "ps" true rfl rfl (Or.inr rfl),
   Command_Unload_reject none ⟨none, none⟩ fleetStore 1 (sampleNode 1 "10.0.0.1" .MSDelete)
      "ps" true rfl rfl (Or.inl rfl)⟩

/-! ### C8: the status gate of Upgrade -/

/-- C8 does not hold of the code: `Upgrade` tests the status against Delete only,
where `Command` and `Unload` test it against Delete and Inactive. For the Inactive
node 4 it returns success and issues one upgrade call to the pusher. -/
theorem Upgrade_inactive_dispatches :
    First none fleetStore 4 = .ok (sampleNode 4 "10.0.0.4" .MSInactive) ∧
    Upgrade none fleetStore 4 "2.0.0" = ⟨none, fleetStore, [Call.pushUpgrade 7 4 "2.0.0"]⟩ :=
  ⟨rfl, rfl⟩

/-- The gate of `Upgrade` as coded. When the lookup returns a node whose status is
Delete, `Upgrade` returns `ErrNodeStatus`, leaves the store as it was and issues no
call to the pusher. When the lookup returns a node in any other status, `Upgrade`
returns success and issues exactly one upgrade call (relay, node, version). -/
theorem Upgrade_gate (fault : Option Err) (s : Store) (mid : Int) (mon : Minion)
    (semver : String) (hF : First fault s mid = .ok mon) :
    (mon.status = MinionStatus.MSDelete →
      Upgrade fault s mid semver = ⟨some Err.ErrNodeStatus, s, []⟩) ∧
    (mon.status ≠ MinionStatus.MSDelete →
      Upgrade fault s mid semver = ⟨none, s, [Call.pushUpgrade mon.brokerID mid semver]⟩) := by
  have hid := First_id fault s mid mon hF
  constructor
  · intro hst
    simp only [Upgrade, hF, if_pos hst]
  · intro hst
    simp only [Upgrade, hF, if_neg hst, hid]

/-- The gate of `Upgrade` at a concrete store: node 1 is marked Delete and is refused. -/
theorem Upgrade_gate_witness :
    Upgrade none fleetStore 1 "2.0.0" = ⟨some Err.ErrNodeStatus, fleetStore, []⟩ :=
  (Upgrade_gate none fleetStore 1 (sampleNode 1 "10.0.0.1" .MSDelete) "2.0.0" rfl).1 rfl

/-! ### C9: Unload is idempotent -/

/-- C9. For a node in an allowed status (neither Delete nor Inactive) whose unload
flag is false, a first `Unload(id, true)` whose update succeeds returns success,
persists the flag and issues exactly one `TaskSync(relay, id, address)`; a second
`Unload(id, true)` on the resulting store finds the flag set, returns success, leaves
the store as it is and issues no call: one `TaskSync` over the two calls. In any
store, for a node in an allowed status, an `Unload` whose flag equals the stored flag
returns success, writes nothing and issues no call. -/
theorem Unload_twice (f1 f2 : UnloadFaults) (s : Store) (mid : Int) (mon : Minion)
    (hF : First f1.first s mid = .ok mon)
    (hst : ¬ (mon.status = MinionStatus.MSDelete ∨ mon.status = MinionStatus.MSInactive))
    (hflag : mon.unload = false) (hupd : f1.update = none) (h2 : f2.first = none) :
    Unload f1 s mid true =
      ⟨none, setUnload s mid true, [Call.pushTaskSync mon.brokerID mid mon.inet]⟩ ∧
    First f2.first (Unload f1 s mid true).store mid = .ok { mon with unload := true } ∧
    Unload f2 (Unload f1 s mid true).store mid true = ⟨none, setUnload s mid true, []⟩ ∧
    (Unload f1 s mid true).calls ++ (Unload f2 (Unload f1 s mid true).store mid true).calls
      = [Call.pushTaskSync mon.brokerID mid mon.inet] ∧
    (∀ (g : UnloadFaults) (s0 : Store) (i : Int) (m0 : Minion) (v : Bool),
      First g.first s0 i = .ok m0 →
      ¬ (m0.status = MinionStatus.MSDelete ∨ m0.status = MinionStatus.MSInactive) →
      v = m0.unload → Unload g s0 i v = ⟨none, s0, []⟩) := by
  have hgen : ∀ (g : UnloadFaults) (s0 : Store) (i : Int) (m0 : Minion) (v : Bool),
      First g.first s0 i = .ok m0 →
      ¬ (m0.status = MinionStatus.MSDelete ∨ m0.status = MinionStatus.MSInactive) →
      v = m0.unload → Unload g s0 i v = ⟨none, s0, []⟩ := by
    intro g s0 i m0 v hg hs hv
    simp only [Unload, hg, if_neg hs, if_pos hv]
  have hne : ¬ (true = mon.unload) := by simp [hflag]
  have h1 : Unload f1 s mid true =
      ⟨none, setUnload s mid true, [Call.pushTaskSync mon.brokerID mid mon.inet]⟩ := by
    simp only [Unload, hF, if_neg hst, if_neg hne, hupd]
  have hnone : f1.first = none := ((First_ok_iff _ _ _ _).mp hF).1
  have hF2 : First f2.first (setUnload s mid true) mid = .ok { mon with unload := true } := by
    rw [h2]
    exact First_setUnload s mid true mon (hnone ▸ hF)
  have h3 : Unload f2 (setUnload s mid true) mid true = ⟨none, setUnload s mid true, []⟩ :=
    hgen f2 _ mid _ true hF2 hst rfl
  rw [h1]
  exact ⟨rfl, hF2, h3, by rw [h3]; rfl, hgen⟩

/-- C9 at a concrete store: node 2 is Online with the flag unset. -/
theorem Unload_twice_witness :
    Unload ⟨none, none⟩ fleetStore 2 true =
      ⟨none, setUnload fleetStore 2 true, [Call.pushTaskSync 7 2 "10.0.0.2"]⟩ ∧
    Unload ⟨none, none⟩ (Unload ⟨none, none⟩ fleetStore 2 true).store 2 true =
      ⟨none, setUnload fleetStore 2 true, []⟩ :=
  ⟨(Unload_twice ⟨none, none⟩ ⟨none, none⟩ fleetStore 2 (sampleNode 2 "10.0.0.2" .MSOnline)
      rfl (by decide) rfl rfl rfl).1,
   (Unload_twice ⟨none, none⟩ ⟨none, none⟩ fleetStore 2 (sampleNode 2 "10.0.0.2" .MSOnline)
      rfl (by decide) rfl rfl rfl).2.2.1⟩


/-- A select round returns at most 100 ids. -/
theorem selectRound_length (whr : Minion → Option MinionTag → Bool) (s : Store) :
    (selectRound whr s).length ≤ 100 := by
  unfold selectRound
  exact List.length_take_le _ _

/-- The update of a round keeps every row, changing at most its status to Delete. -/
theorem markDeleted_rel (s : Store) (mids : List Int) :
    List.Forall₂ softDeleted s.minions (markDeleted s mids).minions := by
  simp only [markDeleted]
  induction s.minions with
  | nil => exact List.Forall₂.nil
  | cons m l ih =>
    rw [List.map_cons]
    refine List.Forall₂.cons ?_ ih
    by_cases h : (m.status != MinionStatus.MSDelete && decide (m.id ∈ mids)) = true
    · rw [if_pos h]
      simp only [Bool.and_eq_true, bne_iff_ne, ne_eq, decide_eq_true_eq] at h
      exact Or.inr ⟨h.1, rfl⟩
    · rw [if_neg h]
      exact Or.inl rfl

/-- The change relation is transitive along the rounds. -/
theorem softDeleted_trans (a b c : List Minion)
    (h1 : List.Forall₂ softDeleted a b) (h2 : List.Forall₂ softDeleted b c) :
    List.Forall₂ softDeleted a c := by
  induction h1 generalizing c with
  | nil => cases h2; exact List.Forall₂.nil
  | cons hab _ ih =>
    cases h2 with
    | cons hbc htl =>
      refine List.Forall₂.cons ?_ (ih _ htl)
      rcases hab with rfl | ⟨hne, rfl⟩
      · exact hbc
      · rcases hbc with rfl | ⟨hne2, -⟩
        · exact Or.inr ⟨hne, rfl⟩
        · exact absurd rfl hne2

/-- The change relation keeps the ids, row by row. -/
theorem softDeleted_ids (a b : List Minion) (h : List.Forall₂ softDeleted a b) :
    b.map (fun m => m.id) = a.map (fun m => m.id) := by
  induction h with
  | nil => rfl
  | cons hab _ ih =>
    rw [List.map_cons, List.map_cons, ih]
    rcases hab with rfl | ⟨-, rfl⟩ <;> rfl

/-- Under the change relation, the rows whose status differs are exactly the rows
that became Delete. -/
theorem softDeleted_count (a b : List Minion) (h : List.Forall₂ softDeleted a b) :
    statusChanges a b + (a.filter (fun m => m.status == MinionStatus.MSDelete)).length
      = (b.filter (fun m => m.status == MinionStatus.MSDelete)).length := by
  induction h with
  | nil => rfl
  | @cons x y l1 l2 hab _ ih =>
    unfold statusChanges at ih ⊢
    rw [List.zip_cons_cons]
    rcases hab with rfl | ⟨hne, rfl⟩
    · by_cases hd : y.status = MinionStatus.MSDelete
      · simp only [List.filter_cons, hd, bne_self_eq_false, beq_self_eq_true, if_true,
          List.length_cons, Bool.false_eq_true, if_false]
        omega
      · simp only [List.filter_cons, bne_self_eq_false, Bool.false_eq_true, if_false,
          beq_iff_eq, hd]
        exact ih
    · have hb : (x.status != MinionStatus.MSDelete) = true := by simpa using hne
      have hx : (x.status == MinionStatus.MSDelete) = false := by simpa using hne
      simp only [List.filter_cons, hb, hx, if_true, List.length_cons, beq_self_eq_true,
        Bool.false_eq_true, if_false]
      omega

/-- In a table with unique ids, at most `mids.length` rows have their id in `mids`. -/
theorem rows_in_le (l : List Minion) (mids : List Int)
    (hpk : (l.map (fun m => m.id)).Nodup) :
    (l.filter (fun m => decide (m.id ∈ mids))).length ≤ mids.length := by
  have hsub : ((l.filter (fun m => decide (m.id ∈ mids))).map (fun m => m.id)) ⊆ mids := by
    intro a ha
    obtain ⟨m, hm, rfl⟩ := List.mem_map.mp ha
    simpa using (List.mem_filter.mp hm).2
  have hnd : ((l.filter (fun m => decide (m.id ∈ mids))).map (fun m => m.id)).Nodup :=
    List.Nodup.sublist (List.Sublist.map _ (List.filter_sublist l)) hpk
  have := (List.subperm_of_subset hnd hsub).length_le
  simpa using this

/-- One update turns at most `mids.length` rows to Delete when ids are unique. -/
theorem markDeleted_changes (s : Store) (mids : List Int)
    (hpk : (s.minions.map (fun m => m.id)).Nodup) :
    statusChanges s.minions (markDeleted s mids).minions ≤ mids.length := by
  refine le_trans ?_ (rows_in_le s.minions mids hpk)
  simp only [markDeleted, statusChanges]
  clear hpk
  induction s.minions with
  | nil => simp
  | cons m l ih =>
    rw [List.map_cons, List.zip_cons_cons, List.filter_cons, List.filter_cons]
    by_cases hc : (m.status != MinionStatus.MSDelete && decide (m.id ∈ mids)) = true
    · have hc2 := hc
      rw [Bool.and_eq_true] at hc2
      rw [if_pos hc, if_pos hc2.2, if_pos (by simpa using hc2.1)]
      simp only [List.length_cons]
      omega
    · rw [if_neg hc, if_neg (by simp)]
      split_ifs
      · simp only [List.length_cons]
        omega
      · exact ih

/-- Every table is related to itself. -/
theorem softDeleted_refl (l : List Minion) : List.Forall₂ softDeleted l l := by
  induction l with
  | nil => exact List.Forall₂.nil
  | cons m l ih => exact List.Forall₂.cons (Or.inl rfl) ih

/-- The store a round passes on to the next one. -/
theorem round_rel (f : DeleteFaults) (k : Nat) (s : Store) (mids : List Int) :
    List.Forall₂ softDeleted s.minions
      (if f.update k = true then s else markDeleted s mids).minions := by
  split_ifs
  · exact softDeleted_refl _
  · exact markDeleted_rel s mids

/-- A round whose select fails ends the loop with that error. -/
theorem deleteLoop_scan_err (whr : Minion → Option MinionTag → Bool) (f : DeleteFaults)
    (n : Nat) (s : Store) (tr : List (List Int)) (e : Err) (hs : f.scan (100 - n) = some e) :
    deleteLoop whr f (n + 1) s tr = ⟨some e, s, tr ++ [[]]⟩ := by
  simp only [deleteLoop, hs]

/-- A round whose select returns no row ends the loop without error. -/
theorem deleteLoop_empty (whr : Minion → Option MinionTag → Bool) (f : DeleteFaults)
    (n : Nat) (s : Store) (tr : List (List Int)) (hs : f.scan (100 - n) = none)
    (h0 : (selectRound whr s).length = 0) :
    deleteLoop whr f (n + 1) s tr = ⟨none, s, tr ++ [selectRound whr s]⟩ := by
  simp only [deleteLoop, hs, if_pos h0]

/-- A round whose select returns rows runs the update and goes on. -/
theorem deleteLoop_step (whr : Minion → Option MinionTag → Bool) (f : DeleteFaults)
    (n : Nat) (s : Store) (tr : List (List Int)) (hs : f.scan (100 - n) = none)
    (h0 : ¬ (selectRound whr s).length = 0) :
    deleteLoop whr f (n + 1) s tr =
      deleteLoop whr f n
        (if f.update (100 - n) = true then s else markDeleted s (selectRound whr s))
        (tr ++ [selectRound whr s]) := by
  simp only [deleteLoop, hs, if_neg h0]

/-- The loop runs at most `n` more selects, each returning at most 100 ids. -/
theorem deleteLoop_rounds (whr : Minion → Option MinionTag → Bool) (f : DeleteFaults)
    (n : Nat) (s : Store) (tr : List (List Int)) :
    (deleteLoop whr f n s tr).rounds.length ≤ tr.length + n ∧
    ∀ ids ∈ (deleteLoop whr f n s tr).rounds, ids ∈ tr ∨ ids.length ≤ 100 := by
  induction n generalizing s tr with
  | zero => exact ⟨by simp [deleteLoop], fun ids h => Or.inl (by simpa [deleteLoop] using h)⟩
  | succ n ih =>
    have hlen := selectRound_length whr s
    cases hs : f.scan (100 - n) with
    | some e =>
      rw [deleteLoop_scan_err whr f n s tr e hs]
      simp only [List.length_append, List.length_singleton, List.mem_append,
        List.mem_singleton]
      refine ⟨by omega, fun ids h => ?_⟩
      rcases h with h | h
      · exact Or.inl h
      · exact Or.inr (by simp [h])
    | none =>
      by_cases h0 : (selectRound whr s).length = 0
      · rw [deleteLoop_empty whr f n s tr hs h0]
        simp only [List.length_append, List.length_singleton, List.mem_append,
          List.mem_singleton]
        refine ⟨by omega, fun ids h => ?_⟩
        rcases h with h | h
        · exact Or.inl h
        · exact Or.inr (by rw [h]; exact hlen)
      · rw [deleteLoop_step whr f n s tr hs h0]
        obtain ⟨h1, h2⟩ := ih (if f.update (100 - n) = true then s
          else markDeleted s (selectRound whr s)) (tr ++ [selectRound whr s])
        simp only [List.length_append, List.length_singleton] at h1
        refine ⟨by omega, fun ids h => ?_⟩
        rcases h2 ids h with h | h
        · rcases List.mem_append.mp h with h | h
          · exact Or.inl h
          · exact Or.inr (by rw [List.mem_singleton.mp h]; exact hlen)
        · exact Or.inr h

/-- The loop keeps every row, changing at most its status to Delete. -/
theorem deleteLoop_rel (whr : Minion → Option MinionTag → Bool) (f : DeleteFaults)
    (n : Nat) (s : Store) (tr : List (List Int)) :
    List.Forall₂ softDeleted s.minions (deleteLoop whr f n s tr).store.minions := by
  induction n generalizing s tr with
  | zero => exact softDeleted_refl _
  | succ n ih =>
    cases hs : f.scan (100 - n) with
    | some e =>
      rw [deleteLoop_scan_err whr f n s tr e hs]
      exact softDeleted_refl _
    | none =>
      by_cases h0 : (selectRound whr s).length = 0
      · rw [deleteLoop_empty whr f n s tr hs h0]
        exact softDeleted_refl _
      · rw [deleteLoop_step whr f n s tr hs h0]
        exact softDeleted_trans _ _ _ (round_rel f (100 - n) s (selectRound whr s)) (ih _ _)

/-- With unique ids, `n` rounds turn at most `100 * n` rows to Delete. -/
theorem deleteLoop_changes (whr : Minion → Option MinionTag → Bool) (f : DeleteFaults)
    (n : Nat) (s : Store) (tr : List (List Int))
    (hpk : (s.minions.map (fun m => m.id)).Nodup) :
    statusChanges s.minions (deleteLoop whr f n s tr).store.minions ≤ 100 * n := by
  have key : ∀ (a b c : List Minion), List.Forall₂ softDeleted a b →
      List.Forall₂ softDeleted b c → statusChanges a c = statusChanges a b + statusChanges b c := by
    intro a b c hab hbc
    have h1 := softDeleted_count a b hab
    have h2 := softDeleted_count b c hbc
    have h3 := softDeleted_count a c (softDeleted_trans a b c hab hbc)
    omega
  have hself : ∀ l : List Minion, statusChanges l l = 0 := by
    intro l
    have := softDeleted_count l l (softDeleted_refl l)
    omega
  induction n generalizing s tr with
  | zero => simp [deleteLoop, hself]
  | succ n ih =>
    cases hs : f.scan (100 - n) with
    | some e =>
      rw [deleteLoop_scan_err whr f n s tr e hs, hself]
      omega
    | none =>
      by_cases h0 : (selectRound whr s).length = 0
      · rw [deleteLoop_empty whr f n s tr hs h0, hself]
        omega
      · rw [deleteLoop_step whr f n s tr hs h0]
        have hrel := round_rel f (100 - n) s (selectRound whr s)
        have hpk2 : ((if f.update (100 - n) = true then s
            else markDeleted s (selectRound whr s)).minions.map (fun m => m.id)).Nodup := by
          rw [softDeleted_ids _ _ hrel]
          exact hpk
        have hstep : statusChanges s.minions (if f.update (100 - n) = true then s
            else markDeleted s (selectRound whr s)).minions ≤ 100 := by
          split_ifs
          · rw [hself]; omega
          · exact le_trans (markDeleted_changes s _ hpk) (selectRound_length whr s)
        have hrec := ih (if f.update (100 - n) = true then s
            else markDeleted s (selectRound whr s)) (tr ++ [selectRound whr s]) hpk2
        rw [key _ _ _ hrel (deleteLoop_rel whr f n _ _)]
        omega

/-! ### C10: the circuit breaker of the bulk soft delete -/

/-- C10. `Delete` is a total function of the store, the WHERE clause of its select
and the storage faults. Whatever they are (for every clause the likes and the scope
can give, in particular `whereScope scope` and `whereLikes likes`), one invocation runs
at most 100 selects, each returning at most 100 node ids; every node row is left as it
was or has only its status turned to Delete; and, node ids being unique, at most
10,000 rows change status, also when more rows match and when updates fail. -/
theorem Delete_bounded (whr : Minion → Option MinionTag → Bool) (f : DeleteFaults)
    (s : Store) (hpk : (s.minions.map (fun m => m.id)).Nodup) :
    (Delete whr f s).rounds.length ≤ 100 ∧
    (∀ ids ∈ (Delete whr f s).rounds, ids.length ≤ 100) ∧
    List.Forall₂ softDeleted s.minions (Delete whr f s).store.minions ∧
    statusChanges s.minions (Delete whr f s).store.minions ≤ 10000 := by
  obtain ⟨h1, h2⟩ := deleteLoop_rounds whr f 100 s []
  refine ⟨by simpa [Delete] using h1, ?_, deleteLoop_rel whr f 100 s [], ?_⟩
  · intro ids h
    rcases h2 ids h with h | h
    · exact absurd h (List.not_mem_nil _)
    · exact h
  · exact deleteLoop_changes whr f 100 s [] hpk

/-- C10 at a concrete store with the like `minion_tag.tag = '10.0.0.2'`: the first
select returns nodes 2, 3 and 4, the later ones the deleted node 2, so the call runs
all of its 100 rounds and stops there, having changed the status of three rows. -/
theorem Delete_bounded_witness :
    (fleetStore.minions.map (fun m => m.id)).Nodup ∧
    ((Delete (whereLikes [tagIs "10.0.0.2"]) sampleDeleteFaults fleetStore).rounds.length
        ≤ 100 ∧
     (∀ ids ∈ (Delete (whereLikes [tagIs "10.0.0.2"]) sampleDeleteFaults fleetStore).rounds,
        ids.length ≤ 100) ∧
     List.Forall₂ softDeleted fleetStore.minions
       (Delete (whereLikes [tagIs "10.0.0.2"]) sampleDeleteFaults fleetStore).store.minions ∧
     statusChanges fleetStore.minions
       (Delete (whereLikes [tagIs "10.0.0.2"]) sampleDeleteFaults fleetStore).store.minions
         ≤ 10000) ∧
    (Delete (whereLikes [tagIs "10.0.0.2"]) sampleDeleteFaults fleetStore).rounds.length
      = 100 ∧
    statusChanges fleetStore.minions
      (Delete (whereLikes [tagIs "10.0.0.2"]) sampleDeleteFaults fleetStore).store.minions
        = 3 :=
  ⟨by decide,
   Delete_bounded (whereLikes [tagIs "10.0.0.2"]) sampleDeleteFaults fleetStore (by decide),
   by decide, by decide⟩

/-- A table mapped row by row is related to the old one by any relation the map
respects. -/
theorem forall2_map_self {α : Type} (R : α → α → Prop) (g : α → α) (l : List α)
    (h : ∀ a, R a (g a)) : List.Forall₂ R l (l.map g) := by
  induction l with
  | nil => exact List.Forall₂.nil
  | cons a l ih => exact List.Forall₂.cons (h a) ih

/-- Row-wise relations compose along two successive versions of a table. -/
theorem forall2_compose {α : Type} (R1 R2 R3 : α → α → Prop) (l1 l2 l3 : List α)
    (h12 : List.Forall₂ R1 l1 l2) (h23 : List.Forall₂ R2 l2 l3)
    (h : ∀ a b c, R1 a b → R2 b c → R3 a c) : List.Forall₂ R3 l1 l3 := by
  induction h12 generalizing l3 with
  | nil => cases h23; exact List.Forall₂.nil
  | cons hab _ ih =>
    cases h23 with
    | cons hbc htl => exact List.Forall₂.cons (h _ _ _ hab hbc) (ih _ htl)

/-- A last error of a relay is the message of one of its error results. -/
theorem lastError_mem (results : List ErrorFuture) (b : Int) (msg : String)
    (h : lastError results b = some msg) : (⟨b, some msg⟩ : ErrorFuture) ∈ results := by
  induction results with
  | nil => simp [lastError] at h
  | cons ft rest ih =>
    unfold lastError at h
    cases hr : lastError rest b with
    | some m =>
      rw [hr] at h
      simp only [Option.some.injEq] at h
      exact List.mem_cons_of_mem _ (ih (h ▸ hr))
    | none =>
      rw [hr] at h
      simp only at h
      by_cases hb : ft.brokerID = b
      · rw [if_pos hb] at h
        have : ft = ⟨b, some msg⟩ := by cases ft; simp_all
        rw [this]
        exact List.mem_cons_self _ _
      · rw [if_neg hb] at h
        cases h

/-- A relay has no last error exactly when none of its results is an error. -/
theorem lastError_none (results : List ErrorFuture) (b : Int) :
    lastError results b = none ↔ ∀ ft ∈ results, ft.brokerID = b → ft.err = none := by
  induction results with
  | nil => simp [lastError]
  | cons ft rest ih =>
    unfold lastError
    cases hr : lastError rest b with
    | some m =>
      simp only [false_iff, reduceCtorEq]
      intro hall
      have := ih.mpr (fun x hx hb => hall x (List.mem_cons_of_mem _ hx) hb)
      rw [hr] at this
      cases this
    | none =>
      simp only
      have hrest := ih.mp hr
      by_cases hb : ft.brokerID = b
      · rw [if_pos hb]
        constructor
        · intro h x hx hxb
          rcases List.mem_cons.mp hx with rfl | hx
          · exact h
          · exact hrest x hx hxb
        · intro h
          exact h ft (List.mem_cons_self _ _) hb
      · rw [if_neg hb]
        simp only [true_iff]
        intro x hx hxb
        rcases List.mem_cons.mp hx with rfl | hx
        · exact absurd hxb hb
        · exact hrest x hx hxb

/-- When every relay has one result, the last error of a relay is its error. -/
theorem lastError_of_mem (results : List ErrorFuture) (b : Int) (msg : String)
    (hnd : (results.map (fun ft => ft.brokerID)).Nodup)
    (h : (⟨b, some msg⟩ : ErrorFuture) ∈ results) : lastError results b = some msg := by
  cases hl : lastError results b with
  | none =>
    have := (lastError_none results b).mp hl _ h rfl
    cases this
  | some m =>
    have hm := lastError_mem results b m hl
    have hinj := List.inj_on_of_nodup_map hnd h hm rfl
    simp only [ErrorFuture.mk.injEq, true_and, Option.some.injEq] at hinj
    rw [hinj]

/-- The last error of a relay, one result at a time. -/
theorem lastError_cons (ft : ErrorFuture) (rest : List ErrorFuture) (b : Int) :
    lastError (ft :: rest) b =
      (match lastError rest b with
       | some msg => some msg
       | none => if ft.brokerID = b then ft.err else none) := rfl

/-- A reflexive relation relates every table to itself. -/
theorem forall2_same {α : Type} (R : α → α → Prop) (l : List α) (h : ∀ a, R a a) :
    List.Forall₂ R l l := by
  induction l with
  | nil => exact List.Forall₂.nil
  | cons a l ih => exact List.Forall₂.cons (h a) ih

/-- Writing a failure over a failure keeps the last reason only. -/
theorem markFailed_markFailed (r : SubstanceTask) (m1 m2 : String) :
    markFailed (markFailed r m1) m2 = markFailed r m2 := rfl

/-- One update: the rows keyed by (task, relay) get the failure, the others stay. -/
theorem updateTask_rel (tasks : List SubstanceTask) (tid bid : Int) (msg : String) :
    List.Forall₂
      (fun a b => b = a ∨ (a.taskID = tid ∧ a.brokerID = bid ∧ b = markFailed a msg))
      tasks (updateTask tasks tid bid msg) := by
  unfold updateTask
  apply forall2_map_self
  intro a
  by_cases h : (a.taskID == tid && a.brokerID == bid) = true
  · rw [if_pos h]
    simp only [Bool.and_eq_true, beq_iff_eq] at h
    exact Or.inr ⟨h.1, h.2, rfl⟩
  · rw [if_neg h]
    exact Or.inl rfl

/-- Whatever updates fail, `TaskTable` leaves every record as it was or, for a record
of the task whose relay has an error result, marked failed with that error's message. -/
theorem taskTableLoop_rel (fails : Nat → Bool) (tid : Int) (i : Nat)
    (results : List ErrorFuture) (tasks : List SubstanceTask) :
    List.Forall₂
      (fun a b => b = a ∨ (a.taskID = tid ∧
        ∃ msg, (⟨a.brokerID, some msg⟩ : ErrorFuture) ∈ results ∧ b = markFailed a msg))
      tasks (taskTableLoop fails tid i results tasks) := by
  induction results generalizing i tasks with
  | nil => exact forall2_same _ tasks (fun a => Or.inl rfl)
  | cons ft rest ih =>
    unfold taskTableLoop
    cases he : ft.err with
    | none =>
      simp only
      refine List.Forall₂.imp ?_ (ih (i + 1) tasks)
      rintro a b (h | ⟨ht, msg, hm, hb⟩)
      · exact Or.inl h
      · exact Or.inr ⟨ht, msg, List.mem_cons_of_mem _ hm, hb⟩
    | some msg =>
      simp only
      have hft : ft = ⟨ft.brokerID, some msg⟩ := by cases ft; simp_all
      have h1 : List.Forall₂
          (fun a b => b = a ∨ (a.taskID = tid ∧ a.brokerID = ft.brokerID ∧ b = markFailed a msg))
          tasks (if fails i = true then tasks else updateTask tasks tid ft.brokerID msg) := by
        split_ifs
        · exact forall2_same _ tasks (fun a => Or.inl rfl)
        · exact updateTask_rel tasks tid ft.brokerID msg
      refine forall2_compose _ _ _ _ _ _ h1 (ih (i + 1) _) ?_
      rintro a b c (rfl | ⟨ht, hb, rfl⟩) (rfl | ⟨ht2, m2, hm2, rfl⟩)
      · exact Or.inl rfl
      · exact Or.inr ⟨ht2, m2, List.mem_cons_of_mem _ hm2, rfl⟩
      · refine Or.inr ⟨ht, msg, ?_, rfl⟩
        rw [hb, ← hft]
        exact List.mem_cons_self _ _
      · refine Or.inr ⟨ht, m2, List.mem_cons_of_mem _ hm2, ?_⟩
        exact markFailed_markFailed a msg m2

/-- When no update fails, `TaskTable` leaves each record of the task marked with the
last error of its relay, and every other record as it was. -/
theorem taskTableLoop_eq (fails : Nat → Bool) (tid : Int) (i : Nat)
    (results : List ErrorFuture) (tasks : List SubstanceTask)
    (hok : ∀ k, fails k = false) :
    taskTableLoop fails tid i results tasks = tasks.map (fun r =>
      if r.taskID = tid then
        match lastError results r.brokerID with
        | some msg => markFailed r msg
        | none => r
      else r) := by
  induction results generalizing i tasks with
  | nil => simp [taskTableLoop, lastError]
  | cons ft rest ih =>
    unfold taskTableLoop
    cases he : ft.err with
    | none =>
      simp only
      rw [ih (i + 1) tasks]
      apply List.map_congr_left
      intro r _
      by_cases ht : r.taskID = tid
      · simp only [if_pos ht]
        rw [lastError_cons]
        cases hr : lastError rest r.brokerID with
        | some m => rfl
        | none => simp [he]
      · simp only [if_neg ht]
    | some msg =>
      simp only [hok i, Bool.false_eq_true, if_false]
      rw [ih (i + 1) _, updateTask, List.map_map]
      apply List.map_congr_left
      intro r _
      simp only [Function.comp]
      by_cases ht : r.taskID = tid
      · by_cases hb : r.brokerID = ft.brokerID
        · have hc : (r.taskID == tid && r.brokerID == ft.brokerID) = true := by simp [ht, hb]
          simp only [if_pos hc, if_pos ht, lastError_cons]
          cases hr : lastError rest r.brokerID with
          | some m => rfl
          | none => simp [hb, he, markFailed]
        · have hc : ¬ (r.taskID == tid && r.brokerID == ft.brokerID) = true := by simp [hb]
          simp only [if_neg hc, if_pos ht, lastError_cons]
          cases hr : lastError rest r.brokerID with
          | some m => rfl
          | none => simp [Ne.symm hb]
      · have hc : ¬ (r.taskID == tid && r.brokerID == ft.brokerID) = true := by simp [ht]
        rw [if_neg hc]
        simp only [if_neg ht]

/-- Every row of the new version of a table comes from a row of the old one. -/
theorem forall2_mem_right {α : Type} (R : α → α → Prop) (l1 l2 : List α)
    (h : List.Forall₂ R l1 l2) (b : α) (hb : b ∈ l2) : ∃ a ∈ l1, R a b := by
  induction h with
  | nil => cases hb
  | cons hab _ ih =>
    rcases List.mem_cons.mp hb with rfl | hb
    · exact ⟨_, List.mem_cons_self _ _, hab⟩
    · obtain ⟨a, ha, hr⟩ := ih hb
      exact ⟨a, List.mem_cons_of_mem _ ha, hr⟩

/-! ### C11: TaskTable records the failures -/

/-- C11. `TaskTable` issues one multicast (opcode FPTaskTable, payload the task id)
to the relays given. When its updates succeed, it leaves each record of that task
whose relay has an error result with executed = true, failed = true and reason the
message of that relay's (last) error, and every other record as it was: a record of
that task whose relay only has success results, and every record of another task. The
last error of a relay is the message of one of its error results, is absent exactly
when the relay has no error result, and is the relay's error when each relay has one
result. Whatever updates fail, a record is left as it was or marked failed with the
message of an error result of its relay. -/
theorem TaskTable_marks_failed (multicast : List Int → Opcode → Payload → List ErrorFuture)
    (fails : Nat → Bool) (tasks : List SubstanceTask) (bids : List Int) (tid : Int)
    (hok : ∀ k, fails k = false) :
    (TaskTable multicast fails tasks bids tid).1
      = [HubCall.Multicast bids Opcode.FPTaskTable (Payload.TaskTable tid)] ∧
    (TaskTable multicast fails tasks bids tid).2 = tasks.map (fun r =>
      if r.taskID = tid then
        match lastError (multicast bids Opcode.FPTaskTable (Payload.TaskTable tid)) r.brokerID with
        | some msg => markFailed r msg
        | none => r
      else r) ∧
    (∀ (b : Int) (msg : String),
      lastError (multicast bids Opcode.FPTaskTable (Payload.TaskTable tid)) b = some msg →
      (⟨b, some msg⟩ : ErrorFuture) ∈ multicast bids Opcode.FPTaskTable (Payload.TaskTable tid)) ∧
    (∀ b : Int, lastError (multicast bids Opcode.FPTaskTable (Payload.TaskTable tid)) b = none ↔
      ∀ ft ∈ multicast bids Opcode.FPTaskTable (Payload.TaskTable tid),
        ft.brokerID = b → ft.err = none) ∧
    (((multicast bids Opcode.FPTaskTable (Payload.TaskTable tid)).map
        (fun ft => ft.brokerID)).Nodup →
      ∀ (b : Int) (msg : String),
        (⟨b, some msg⟩ : ErrorFuture) ∈ multicast bids Opcode.FPTaskTable (Payload.TaskTable tid) →
        lastError (multicast bids Opcode.FPTaskTable (Payload.TaskTable tid)) b = some msg) ∧
    (∀ g : Nat → Bool, List.Forall₂
      (fun a b => b = a ∨ (a.taskID = tid ∧ ∃ msg,
        (⟨a.brokerID, some msg⟩ : ErrorFuture) ∈
          multicast bids Opcode.FPTaskTable (Payload.TaskTable tid) ∧ b = markFailed a msg))
      tasks (TaskTable multicast g tasks bids tid).2) :=
  ⟨rfl, taskTableLoop_eq fails tid 0 _ tasks hok, lastError_mem _, lastError_none _,
   fun hnd b msg h => lastError_of_mem _ b msg hnd h,
   fun g => taskTableLoop_rel g tid 0 _ tasks⟩

/-- C11 on the spec's example: targets 1, 2, 3, relay 2 not connected and relay 3
timed out; only the records of task 9 for relays 2 and 3 become failed, each with
its own reason. -/
theorem TaskTable_marks_failed_witness :
    (TaskTable sampleHub (fun _ => false) sampleTasks [1, 2, 3] 9).2 =
      [⟨9, 1, false, false, ""⟩, ⟨9, 2, true, true, "not connected"⟩,
       ⟨9, 3, true, true, "timeout"⟩, ⟨8, 2, true, false, ""⟩] :=
  (TaskTable_marks_failed sampleHub (fun _ => false) sampleTasks [1, 2, 3] 9
    (fun _ => rfl)).2.1.trans (by decide)

/-! ### C12: the invariant of the task records -/

/-- C12, as stated, fails: `TaskTable` copies the message of the error into the
record as it is. When relay 2 fails with an error whose message is empty, the record
of task 9 for relay 2 ends with failed = true and an empty reason, in a table that
satisfied the invariant before the call. -/
theorem TaskTable_empty_reason_counterexample :
    TaskInv sampleTasks ∧
    TaskReach silentHub sampleTasks (TaskTable silentHub (fun _ => false) sampleTasks [2] 9).2 ∧
    ¬ TaskInv (TaskTable silentHub (fun _ => false) sampleTasks [2] 9).2 := by
  refine ⟨by unfold TaskInv; decide, TaskReach.call _ _ _ _ TaskReach.start, ?_⟩
  unfold TaskInv
  decide

/-- C12, amended. In every task table reachable by `TaskTable` calls from `t0`, the
records are those of `t0`, in order and with the same keys, and no record has its
executed flag changed from true to false; and if every error the hub reports has a
non-empty message and every failed record of `t0` has a non-empty reason, so has
every failed record of the reachable table. -/
theorem TaskReach_invariant (multicast : List Int → Opcode → Payload → List ErrorFuture)
    (t0 t : List SubstanceTask) (hreach : TaskReach multicast t0 t) :
    List.Forall₂ (fun a b => b.taskID = a.taskID ∧ b.brokerID = a.brokerID ∧
      (a.executed = true → b.executed = true)) t0 t ∧
    ((∀ bids op req, ∀ ft ∈ multicast bids op req, ft.err ≠ some "") →
      TaskInv t0 → TaskInv t) := by
  induction hreach with
  | start => exact ⟨forall2_same _ t0 (fun a => ⟨rfl, rfl, id⟩), fun _ h => h⟩
  | call t fails bids tid _ ih =>
    have hrel := taskTableLoop_rel fails tid 0
      (multicast bids Opcode.FPTaskTable (Payload.TaskTable tid)) t
    constructor
    · refine forall2_compose _ _ _ _ _ _ ih.1 hrel ?_
      rintro a b c ⟨h1, h2, h3⟩ (rfl | ⟨-, msg, -, rfl⟩)
      · exact ⟨h1, h2, h3⟩
      · exact ⟨h1, h2, fun _ => rfl⟩
    · intro hmsg hinv r hr hfailed
      obtain ⟨a, ha, hab⟩ := forall2_mem_right _ _ _ hrel r hr
      rcases hab with rfl | ⟨-, msg, hm, rfl⟩
      · exact ih.2 hmsg hinv r ha hfailed
      · intro hempty
        have : msg = "" := hempty
        exact hmsg _ _ _ _ hm (by rw [this])

/-- C12 amended, on the spec's example: after the call, the failed records of the
table have a reason. -/
theorem TaskReach_invariant_witness :
    TaskInv (TaskTable sampleHub (fun _ => false) sampleTasks [1, 2, 3] 9).2 :=
  (TaskReach_invariant sampleHub sampleTasks _
    (TaskReach.call _ (fun _ => false) [1, 2, 3] 9 TaskReach.start)).2
    (by intro _ _ _; show ∀ ft ∈ sampleResults, ft.err ≠ some ""; decide)
    (by unfold TaskInv; decide)

/-! ### C13: the guards of TaskSync and TaskDiff -/

/-- C13. `TaskSync(relay, node, addr)` issues exactly one unicast to `relay`, with
opcode FPTaskSync and a payload carrying the node and the address, when relay ≠ 0,
node ≠ 0 and addr ≠ "", and no hub call otherwise. `TaskDiff(relay, node, unit, addr)`
issues exactly one unicast to `relay`, with opcode FPTaskLoad and a payload carrying
the node, the unit and the address, when relay ≠ 0, node ≠ 0, unit ≠ 0 and addr ≠ "",
and no hub call otherwise. Neither hands an error to its caller, whatever the hub
returns. -/
theorem TaskSync_TaskDiff_dispatch (e : Option String) (bid mid sid : Int) (inet : String) :
    (TaskSync e bid mid inet).calls =
      (if bid ≠ 0 ∧ mid ≠ 0 ∧ inet ≠ "" then
        [HubCall.Oneway bid Opcode.FPTaskSync (Payload.TaskSyncRequest mid inet)] else []) ∧
    (TaskSync e bid mid inet).err = none ∧
    (TaskDiff e bid mid sid inet).calls =
      (if bid ≠ 0 ∧ mid ≠ 0 ∧ sid ≠ 0 ∧ inet ≠ "" then
        [HubCall.Oneway bid Opcode.FPTaskLoad (Payload.TaskLoadRequest mid sid inet)] else []) ∧
    (TaskDiff e bid mid sid inet).err = none := by
  refine ⟨?_, ?_, ?_, ?_⟩
  · by_cases h : bid = 0 ∨ mid = 0 ∨ inet = ""
    · have hn : ¬ (bid ≠ 0 ∧ mid ≠ 0 ∧ inet ≠ "") := by
        rintro ⟨h1, h2, h3⟩
        rcases h with h | h | h
        · exact h1 h
        · exact h2 h
        · exact h3 h
      simp only [TaskSync, if_pos h, if_neg hn]
    · have hp : bid ≠ 0 ∧ mid ≠ 0 ∧ inet ≠ "" :=
        ⟨fun x => h (Or.inl x), fun x => h (Or.inr (Or.inl x)), fun x => h (Or.inr (Or.inr x))⟩
      simp only [TaskSync, if_neg h, if_pos hp]
  · unfold TaskSync
    split_ifs <;> rfl
  · by_cases h : bid = 0 ∨ mid = 0 ∨ sid = 0 ∨ inet = ""
    · have hn : ¬ (bid ≠ 0 ∧ mid ≠ 0 ∧ sid ≠ 0 ∧ inet ≠ "") := by
        rintro ⟨h1, h2, h3, h4⟩
        rcases h with h | h | h | h
        · exact h1 h
        · exact h2 h
        · exact h3 h
        · exact h4 h
      simp only [TaskDiff, if_pos h, if_neg hn]
    · have hp : bid ≠ 0 ∧ mid ≠ 0 ∧ sid ≠ 0 ∧ inet ≠ "" :=
        ⟨fun x => h (Or.inl x), fun x => h (Or.inr (Or.inl x)),
         fun x => h (Or.inr (Or.inr (Or.inl x))), fun x => h (Or.inr (Or.inr (Or.inr x)))⟩
      simp only [TaskDiff, if_neg h, if_pos hp]
  · unfold TaskDiff
    split_ifs <;> rfl


/-- A transaction of `Drop` that does not commit reports an error: one of its four
steps failed. -/
theorem dropTx_error_iff (f : DropFaults) (s : Store) (id : Int) :
    (∃ e, dropTx f s id = .error e) ↔
      (f.txTag ≠ none ∨ f.txSub ≠ none ∨ f.txMinion ≠ none ∨ f.txCommit ≠ none) := by
  unfold dropTx
  cases h1 : f.txTag <;> cases h2 : f.txSub <;> cases h3 : f.txMinion <;>
    cases h4 : f.txCommit <;> simp

/-- A tag held by the dropped node alone is wild after the transaction. -/
theorem wild_of_sole_holder (f : DropFaults) (s s1 : Store) (id : Int) (x : String)
    (ht : dropTx f s id = .ok s1) (hx : x ∈ tagsOf s id)
    (hsole : ∀ t ∈ s.tags, t.tag = x → t.minionID = id) :
    x ∈ wildTagsOf (tagsOf s id)
      (tagsStillUsed (secondaryCleanup f.secondary s1 id) (tagsOf s id)) := by
  obtain ⟨-, t1, -, -, -⟩ := dropTx_ok f s s1 id ht
  obtain ⟨-, t2, -, -⟩ := secondaryCleanup_frame f.secondary s1 id
  rw [mem_wildTagsOf, mem_tagsStillUsed]
  refine ⟨hx, ?_⟩
  rintro ⟨-, t, htm, htx⟩
  rw [t2, t1, List.mem_filter] at htm
  have := hsole t htm.1 htx
  simp [this] at htm

/-! ### C14: failures after the transaction of Drop -/

/-- C14, as stated, fails: node 1 is marked Delete and holds tags; the transaction
commits (its rows are gone), the still-referenced-tags query of the wild-tag pass
fails, and `Drop` returns that error instead of success. -/
theorem Drop_wild_pass_error_counterexample :
    (Drop afterScanFails sampleStore 1).err = some (Err.db 1) ∧
    (Drop afterScanFails sampleStore 1).store.minions = [sampleNode 2 "10.0.0.2" .MSOnline] ∧
    (Drop afterScanFails sampleStore 1).store.tags = [⟨"x", 2, .TkEphemeral⟩] := by
  decide

/-- C14, amended. Once the primary transaction of `Drop` has committed, a failure of
any of the best-effort deletes of derived rows does not fail the call: if the two
statements of the wild-tag pass succeed, `Drop` returns success whichever best-effort
deletes fail. A failure of the wild-tag pass is returned by `Drop` as its error: the
error of the still-referenced-tags query when the node held a tag, and the error of
the effect delete when that query succeeded and some tag was held by the node alone. -/
theorem Drop_after_commit (f : DropFaults) (s : Store) (id : Int) (mon : Minion)
    (hfind : First f.first s id = .ok mon) (hst : mon.status = MinionStatus.MSDelete)
    (hscan : f.tagScan = none)
    (htx : f.txTag = none ∧ f.txSub = none ∧ f.txMinion = none ∧ f.txCommit = none) :
    (f.afterScan = none → f.effDelete = none → (Drop f s id).err = none) ∧
    (∀ e, tagsOf s id ≠ [] → f.afterScan = some e → (Drop f s id).err = some e) ∧
    (∀ e x, x ∈ tagsOf s id → (∀ t ∈ s.tags, t.tag = x → t.minionID = id) →
      f.afterScan = none → f.effDelete = some e → (Drop f s id).err = some e) := by
  obtain ⟨s1, ht⟩ := dropTx_of_no_fault f s id htx
  rw [Drop_committed f s s1 id mon hfind hst hscan ht]
  refine ⟨?_, ?_, ?_⟩
  · intro ha he
    unfold wildTagPass
    split_ifs
    · rfl
    · simp only [ha]
      split_ifs
      · rfl
      · simp only [he]
  · intro e hne ha
    have h0 : ¬ (tagsOf s id).length = 0 := fun h => hne (List.length_eq_zero.mp h)
    simp only [wildTagPass, if_neg h0, ha]
  · intro e x hx hsole ha he
    have hw := wild_of_sole_holder f s s1 id x ht hx hsole
    have h0 : ¬ (tagsOf s id).length = 0 := by
      intro h
      rw [List.length_eq_zero.mp h] at hx
      exact List.not_mem_nil _ hx
    have h1 : ¬ (wildTagsOf (tagsOf s id)
        (tagsStillUsed (secondaryCleanup f.secondary s1 id) (tagsOf s id))).length = 0 := by
      intro h
      rw [List.length_eq_zero.mp h] at hw
      exact List.not_mem_nil _ hw
    simp only [wildTagPass, if_neg h0, ha, if_neg h1, he]

/-- C14 amended, at a concrete store: every best-effort delete of the drop of node 1
fails and the call still returns success. -/
theorem Drop_after_commit_witness :
    (Drop { DropFaults.none with secondary := fun _ => true } sampleStore 1).err = none :=
  (Drop_after_commit { DropFaults.none with secondary := fun _ => true } sampleStore 1
    (sampleNode 1 "10.0.0.1" .MSDelete) rfl rfl rfl ⟨rfl, rfl, rfl, rfl⟩).1 rfl rfl

/-! ### C15: a failed transaction of Drop -/

/-- C15. If the primary transaction of `Drop` fails, `Drop` returns the error of the
transaction, issues no call and leaves the store exactly as it was: the node row is
still there with status Delete, with its tag and substance rows, no derived row and no
effect row has been deleted, and a later `Drop` starts from the same store. The
transaction fails as soon as one of its three deletes or its commit does. -/
theorem Drop_tx_failure (f : DropFaults) (s : Store) (id : Int) (mon : Minion) (e : Err)
    (hfind : First f.first s id = .ok mon) (hst : mon.status = MinionStatus.MSDelete)
    (hscan : f.tagScan = none) (htx : dropTx f s id = .error e) :
    Drop f s id = ⟨some e, s, []⟩ ∧
    First f.first (Drop f s id).store id = .ok mon ∧
    (∀ g : DropFaults, Drop g (Drop f s id).store id = Drop g s id) ∧
    ((∃ e2, dropTx f s id = .error e2) ↔
      (f.txTag ≠ none ∨ f.txSub ≠ none ∨ f.txMinion ≠ none ∨ f.txCommit ≠ none)) := by
  have h : Drop f s id = ⟨some e, s, []⟩ := by
    simp only [Drop, hfind, hst, hscan, htx, ne_eq, not_true_eq_false, if_false]
  rw [h]
  exact ⟨rfl, hfind, fun _ => rfl, dropTx_error_iff f s id⟩

/-- C15 at a concrete store: the commit of the drop of node 1 fails, the store is
untouched. -/
theorem Drop_tx_failure_witness :
    Drop commitFails sampleStore 1 = ⟨some (Err.db 2), sampleStore, []⟩ :=
  (Drop_tx_failure commitFails sampleStore 1 (sampleNode 1 "10.0.0.1" .MSDelete) (Err.db 2)
    rfl rfl rfl rfl).1


/-- Every row of the old version of a table has a row in the new one. -/
theorem forall2_mem_left {α : Type} (R : α → α → Prop) (l1 l2 : List α)
    (h : List.Forall₂ R l1 l2) (a : α) (ha : a ∈ l1) : ∃ b ∈ l2, R a b := by
  induction h with
  | nil => cases ha
  | cons hab _ ih =>
    rcases List.mem_cons.mp ha with rfl | ha
    · exact ⟨_, List.mem_cons_self _ _, hab⟩
    · obtain ⟨b, hb, hr⟩ := ih ha
      exact ⟨b, List.mem_cons_of_mem _ hb, hr⟩

/-- A table is not changed by being left alone. -/
theorem NoNewDelete_refl (l : List Minion) : NoNewDelete l l :=
  fun m hm hs => ⟨m, hm, rfl, hs⟩

/-- A table loses no row by being left alone. -/
theorem NoRowRemoved_refl (l : List Minion) : NoRowRemoved l l :=
  fun m hm => ⟨m, hm, rfl⟩

/-- `Upgrade` and `Command` never write to the store. -/
theorem Upgrade_Command_store (fault : Option Err) (s : Store) (mid : Int) (v : String) :
    (Upgrade fault s mid v).store = s ∧ (Command fault s mid v).store = s := by
  constructor
  · unfold Upgrade
    cases First fault s mid with
    | error e => rfl
    | ok mon =>
      simp only
      split_ifs <;> rfl
  · unfold Command
    cases First fault s mid with
    | error e => rfl
    | ok mon =>
      simp only
      split_ifs <;> rfl

/-- `Unload` keeps every node row, with its id and its status. -/
theorem Unload_rel (f : UnloadFaults) (s : Store) (mid : Int) (v : Bool) :
    List.Forall₂ (fun a b => b.id = a.id ∧ b.status = a.status) s.minions
      (Unload f s mid v).store.minions := by
  have hsame := forall2_same (fun a b : Minion => b.id = a.id ∧ b.status = a.status)
    s.minions (fun a => ⟨rfl, rfl⟩)
  unfold Unload
  cases First f.first s mid with
  | error e => exact hsame
  | ok mon =>
    simp only
    split_ifs
    · exact hsame
    · exact hsame
    · cases f.update with
      | some e => exact hsame
      | none =>
        simp only [setUnload]
        apply forall2_map_self
        intro a
        split_ifs <;> exact ⟨rfl, rfl⟩

/-- `Drop` leaves the minion table as it was, or found the node in status Delete and
removed the rows with its id. -/
theorem Drop_minions_cases (f : DropFaults) (s : Store) (id : Int) :
    (Drop f s id).store.minions = s.minions ∨
    ∃ mon, First f.first s id = .ok mon ∧ mon.status = MinionStatus.MSDelete ∧
      (Drop f s id).store.minions = s.minions.filter (fun m => m.id != id) := by
  cases hF : First f.first s id with
  | error e => left; simp only [Drop, hF]
  | ok mon =>
    by_cases hst : mon.status = MinionStatus.MSDelete
    · cases hs : f.tagScan with
      | some e => left; simp only [Drop, hF, hst, hs, ne_eq, not_true_eq_false, if_false]
      | none =>
        cases ht : dropTx f s id with
        | error e =>
          left; simp only [Drop, hF, hst, hs, ht, ne_eq, not_true_eq_false, if_false]
        | ok s1 =>
          right
          obtain ⟨m1, -, -, -, -⟩ := dropTx_ok f s s1 id ht
          obtain ⟨m2, -, -, -⟩ := secondaryCleanup_frame f.secondary s1 id
          obtain ⟨m3, -, -, -⟩ :=
            wildTagPass_frame f (tagsOf s id) (secondaryCleanup f.secondary s1 id)
          refine ⟨mon, rfl, hst, ?_⟩
          rw [Drop_committed f s s1 id mon hF hst hs ht, m3, m2, m1]
    · left
      simp only [Drop, hF, ne_eq, hst, not_false_eq_true, if_true]

/-- `Create` leaves the minion table as it was, or appends one row in status Offline. -/
theorem Create_minions_cases (net : NetLib) (f : CreateFaults) (s : Store) (mc : MinionCreate) :
    (Create net f s mc).store.minions = s.minions ∨
    ∃ m, m.status = MinionStatus.MSOffline ∧
      (Create net f s mc).store.minions = s.minions ++ [m] := by
  by_cases herr : (Create net f s mc).err = none
  · right
    obtain ⟨-, hmin, -, -⟩ := Create_success_inv net f s mc herr
    exact ⟨_, rfl, hmin⟩
  · left
    rw [(Create_error_frame net f s mc herr).1]

/-! ### C16: the lifecycle invariant -/

/-- C16. `Create`, `Drop`, `Upgrade`, `Command` and `Unload` never put a node in
status Delete: after each of them, a row in status Delete has the id of a row that was
in status Delete before; and a successful `Create` appends exactly one row, in status
Offline. `Create`, `Delete` (the bulk soft delete), `Upgrade`, `Command` and `Unload`
never remove a node row. A row that `Drop(id)` removes has that id, and the lookup of
`Drop` returned a node in status Delete; when node ids are unique, the removed row is
that node, so its status at that moment is Delete. -/
theorem lifecycle_invariant :
    (∀ net f s mc, NoNewDelete s.minions (Create net f s mc).store.minions) ∧
    (∀ f s id, NoNewDelete s.minions (Drop f s id).store.minions) ∧
    (∀ fault s mid v, NoNewDelete s.minions (Upgrade fault s mid v).store.minions) ∧
    (∀ fault s mid v, NoNewDelete s.minions (Command fault s mid v).store.minions) ∧
    (∀ f s mid v, NoNewDelete s.minions (Unload f s mid v).store.minions) ∧
    (∀ net f s mc, (Create net f s mc).err = none →
      ∃ m, m.status = MinionStatus.MSOffline ∧
        (Create net f s mc).store.minions = s.minions ++ [m]) ∧
    (∀ net f s mc, NoRowRemoved s.minions (Create net f s mc).store.minions) ∧
    (∀ whr f s, NoRowRemoved s.minions (Delete whr f s).store.minions) ∧
    (∀ fault s mid v, NoRowRemoved s.minions (Upgrade fault s mid v).store.minions) ∧
    (∀ fault s mid v, NoRowRemoved s.minions (Command fault s mid v).store.minions) ∧
    (∀ f s mid v, NoRowRemoved s.minions (Unload f s mid v).store.minions) ∧
    (∀ f s id m, m ∈ s.minions → m ∉ (Drop f s id).store.minions →
      m.id = id ∧ ∃ mon, First f.first s id = .ok mon ∧
        mon.status = MinionStatus.MSDelete ∧
        ((s.minions.map (fun r => r.id)).Nodup → m = mon)) := by
  refine ⟨?_, ?_, ?_, ?_, ?_, ?_, ?_, ?_, ?_, ?_, ?_, ?_⟩
  · intro net f s mc m hm hs
    rcases Create_minions_cases net f s mc with h | ⟨r, hr, h⟩
    · rw [h] at hm
      exact ⟨m, hm, rfl, hs⟩
    · rw [h] at hm
      rcases List.mem_append.mp hm with hm | hm
      · exact ⟨m, hm, rfl, hs⟩
      · rw [List.mem_singleton.mp hm, hr] at hs
        cases hs
  · intro f s id m hm hs
    rcases Drop_minions_cases f s id with h | ⟨mon, -, -, h⟩
    · rw [h] at hm
      exact ⟨m, hm, rfl, hs⟩
    · rw [h] at hm
      exact ⟨m, (List.mem_filter.mp hm).1, rfl, hs⟩
  · intro fault s mid v
    rw [(Upgrade_Command_store fault s mid v).1]
    exact NoNewDelete_refl _
  · intro fault s mid v
    rw [(Upgrade_Command_store fault s mid v).2]
    exact NoNewDelete_refl _
  · intro f s mid v m hm hs
    obtain ⟨a, ha, hid, hst⟩ := forall2_mem_right _ _ _ (Unload_rel f s mid v) m hm
    exact ⟨a, ha, hid.symm, hst ▸ hs⟩
  · intro net f s mc hok
    obtain ⟨-, hmin, -, -⟩ := Create_success_inv net f s mc hok
    exact ⟨_, rfl, hmin⟩
  · intro net f s mc m hm
    rcases Create_minions_cases net f s mc with h | ⟨r, -, h⟩
    · rw [h]
      exact ⟨m, hm, rfl⟩
    · rw [h]
      exact ⟨m, List.mem_append_left _ hm, rfl⟩
  · intro whr f s m hm
    obtain ⟨b, hb, hr⟩ := forall2_mem_left _ _ _ (deleteLoop_rel whr f 100 s []) m hm
    refine ⟨b, hb, ?_⟩
    rcases hr with rfl | ⟨-, rfl⟩ <;> rfl
  · intro fault s mid v
    rw [(Upgrade_Command_store fault s mid v).1]
    exact NoRowRemoved_refl _
  · intro fault s mid v
    rw [(Upgrade_Command_store fault s mid v).2]
    exact NoRowRemoved_refl _
  · intro f s mid v m hm
    obtain ⟨b, hb, hid, -⟩ := forall2_mem_left _ _ _ (Unload_rel f s mid v) m hm
    exact ⟨b, hb, hid⟩
  · intro f s id m hm hnot
    rcases Drop_minions_cases f s id with h | ⟨mon, hF, hst, h⟩
    · rw [h] at hnot
      exact absurd hm hnot
    · rw [h, List.mem_filter] at hnot
      have hid : m.id = id := by
        by_contra hne
        exact hnot ⟨hm, by simpa using hne⟩
      refine ⟨hid, mon, hF, hst, fun hnd => ?_⟩
      have hrow := ((First_ok_iff _ _ _ _).mp hF).2
      have hmon := List.mem_of_find?_eq_some hrow
      have hmid := First_id _ _ _ _ hF
      exact List.inj_on_of_nodup_map hnd hm hmon (hid.trans hmid.symm)

/-- C16 at a concrete store: the only row the drop of node 1 removes is node 1, which
is in status Delete. -/
theorem lifecycle_invariant_witness :
    (sampleNode 1 "10.0.0.1" .MSDelete).id = 1 ∧
    ∃ mon, First DropFaults.none.first sampleStore 1 = .ok mon ∧
      mon.status = MinionStatus.MSDelete ∧
      ((sampleStore.minions.map (fun r => r.id)).Nodup →
        sampleNode 1 "10.0.0.1" .MSDelete = mon) :=
  lifecycle_invariant.2.2.2.2.2.2.2.2.2.2.2 DropFaults.none sampleStore 1
    (sampleNode 1 "10.0.0.1" .MSDelete) (by decide) (by decide)


/-- The rows of the join: a node row with each of its tag rows, or alone when it has
no tag row. -/
theorem mem_joinedRows (s : Store) (m : Minion) (t : Option MinionTag) :
    (m, t) ∈ joinedRows s ↔ m ∈ s.minions ∧
      ((∃ x ∈ s.tags, x.minionID = m.id ∧ t = some x) ∨
       (t = none ∧ ∀ x ∈ s.tags, x.minionID ≠ m.id)) := by
  simp only [joinedRows, List.mem_flatMap]
  constructor
  · rintro ⟨a, ha, hr⟩
    by_cases hemp : (s.tags.filter (fun x => x.minionID == a.id)).isEmpty = true
    · rw [if_pos hemp] at hr
      simp only [List.mem_singleton, Prod.mk.injEq] at hr
      obtain ⟨rfl, rfl⟩ := hr
      refine ⟨ha, Or.inr ⟨rfl, ?_⟩⟩
      intro x hx hid
      have hnil := List.isEmpty_iff.mp hemp
      have : x ∈ s.tags.filter (fun x => x.minionID == m.id) :=
        List.mem_filter.mpr ⟨hx, by simpa using hid⟩
      rw [hnil] at this
      exact List.not_mem_nil _ this
    · rw [if_neg hemp] at hr
      obtain ⟨x, hx, hxe⟩ := List.mem_map.mp hr
      simp only [Prod.mk.injEq] at hxe
      obtain ⟨rfl, rfl⟩ := hxe
      have hx2 := List.mem_filter.mp hx
      exact ⟨ha, Or.inl ⟨x, hx2.1, by simpa using hx2.2, rfl⟩⟩
  · rintro ⟨hm, h⟩
    refine ⟨m, hm, ?_⟩
    rcases h with ⟨x, hx, hid, rfl⟩ | ⟨rfl, hall⟩
    · have hin : x ∈ s.tags.filter (fun x => x.minionID == m.id) :=
        List.mem_filter.mpr ⟨hx, by simpa using hid⟩
      have hemp : ¬ (s.tags.filter (fun x => x.minionID == m.id)).isEmpty = true := by
        intro h
        rw [List.isEmpty_iff.mp h] at hin
        exact List.not_mem_nil _ hin
      rw [if_neg hemp]
      exact List.mem_map.mpr ⟨x, hin, rfl⟩
    · have hemp : (s.tags.filter (fun x => x.minionID == m.id)).isEmpty = true := by
        rw [List.isEmpty_iff, List.filter_eq_nil_iff]
        intro x hx
        simpa using hall x hx
      rw [if_pos hemp]
      exact List.mem_singleton.mpr rfl

/-- The ids a select matches: those of the joined rows that satisfy the clause. -/
theorem mem_matchIds (whr : Minion → Option MinionTag → Bool) (s : Store) (x : Int) :
    x ∈ matchIds whr s ↔ ∃ m t, (m, t) ∈ joinedRows s ∧ whr m t = true ∧ m.id = x := by
  simp only [matchIds, List.mem_dedup, List.mem_map, List.mem_filter, Prod.exists]
  constructor
  · rintro ⟨m, t, ⟨hj, hc⟩, hid⟩
    exact ⟨m, t, hj, hc, hid⟩
  · rintro ⟨m, t, hj, hc, hid⟩
    exact ⟨m, t, ⟨hj, hc⟩, hid⟩

/-- The select is the matched ids, ordered, cut at 100. -/
theorem selectRound_eq (whr : Minion → Option MinionTag → Bool) (s : Store) :
    selectRound whr s = ((matchIds whr s).insertionSort (fun a b => a ≤ b)).take 100 := rfl

/-- The ids a select returns are matched ids, without repetition, and as many as
there are matched ids up to 100. -/
theorem selectRound_facts (whr : Minion → Option MinionTag → Bool) (s : Store) :
    (∀ x ∈ selectRound whr s, x ∈ matchIds whr s) ∧ (selectRound whr s).Nodup ∧
    (selectRound whr s).length = min 100 (matchIds whr s).length := by
  rw [selectRound_eq]
  have hperm := List.perm_insertionSort (fun a b : Int => a ≤ b) (matchIds whr s)
  have hnd : (matchIds whr s).Nodup := List.nodup_dedup _
  refine ⟨?_, ?_, ?_⟩
  · intro x hx
    exact hperm.mem_iff.mp (List.mem_of_mem_take hx)
  · exact List.Nodup.sublist (List.take_sublist _ _) (hperm.nodup_iff.mpr hnd)
  · rw [List.length_take, List.length_insertionSort]

/-- Setting the status of a row that is in status Delete to Delete changes nothing. -/
theorem setDelete_of_deleted (a : Minion) (h : a.status = MinionStatus.MSDelete) :
    ({ a with status := MinionStatus.MSDelete } : Minion) = a := by
  cases a
  simp only at h
  simp [h]

/-- When the clause never holds of a row in status Delete, the matched ids after the
update of a round are the former ones that were not in the update. -/
theorem mem_matchIds_markDeleted (whr : Minion → Option MinionTag → Bool)
    (hw : ∀ m t, whr m t = true → m.status ≠ MinionStatus.MSDelete) (s : Store)
    (mids : List Int) (x : Int) :
    x ∈ matchIds whr (markDeleted s mids) ↔ x ∈ matchIds whr s ∧ x ∉ mids := by
  simp only [mem_matchIds, mem_joinedRows]
  constructor
  · rintro ⟨m2, t, ⟨hm2, htag⟩, hc, hid⟩
    have hs := hw m2 t hc
    simp only [markDeleted, List.mem_map] at hm2
    obtain ⟨m, hm, hg⟩ := hm2
    by_cases hcond : (m.status != MinionStatus.MSDelete && decide (m.id ∈ mids)) = true
    · rw [if_pos hcond] at hg
      rw [← hg] at hs
      exact absurd rfl hs
    · rw [if_neg hcond] at hg
      subst hg
      refine ⟨⟨m, t, ⟨hm, htag⟩, hc, hid⟩, ?_⟩
      intro hin
      apply hcond
      simp only [Bool.and_eq_true, bne_iff_ne, ne_eq, decide_eq_true_eq]
      exact ⟨hs, hid ▸ hin⟩
  · rintro ⟨⟨m, t, ⟨hm, htag⟩, hc, hid⟩, hnot⟩
    refine ⟨m, t, ⟨?_, htag⟩, hc, hid⟩
    simp only [markDeleted, List.mem_map]
    refine ⟨m, hm, ?_⟩
    have hcond : ¬ (m.status != MinionStatus.MSDelete && decide (m.id ∈ mids)) = true := by
      simp only [Bool.and_eq_true, bne_iff_ne, ne_eq, decide_eq_true_eq, not_and]
      intro _ hin
      exact hnot (hid ▸ hin)
    rw [if_neg hcond]

/-- The minion table after the update of a round. -/
theorem markDeleted_minions (s : Store) (mids : List Int) :
    (markDeleted s mids).minions = s.minions.map (fun m =>
      if (m.status != MinionStatus.MSDelete && decide (m.id ∈ mids)) = true
      then { m with status := MinionStatus.MSDelete } else m) := rfl

/-- When the clause never holds of a row in status Delete, a round takes the ids it
selected out of the matched ids. -/
theorem matchIds_markDeleted_length (whr : Minion → Option MinionTag → Bool)
    (hw : ∀ m t, whr m t = true → m.status ≠ MinionStatus.MSDelete) (s : Store) :
    (matchIds whr (markDeleted s (selectRound whr s))).length +
      (selectRound whr s).length ≤ (matchIds whr s).length := by
  obtain ⟨hsub, hnd, -⟩ := selectRound_facts whr s
  have hnd1 : (matchIds whr (markDeleted s (selectRound whr s))).Nodup := List.nodup_dedup _
  have hdis : List.Disjoint (matchIds whr (markDeleted s (selectRound whr s)))
      (selectRound whr s) := by
    intro x hx hx2
    exact ((mem_matchIds_markDeleted whr hw s _ x).mp hx).2 hx2
  have hall : (matchIds whr (markDeleted s (selectRound whr s)) ++ selectRound whr s)
      ⊆ matchIds whr s := by
    intro x hx
    rcases List.mem_append.mp hx with h | h
    · exact ((mem_matchIds_markDeleted whr hw s _ x).mp h).1
    · exact hsub x h
  have := (List.subperm_of_subset (List.Nodup.append hnd1 hnd hdis) hall).length_le
  simpa using this

/-- The loop of `Delete` writes to the minion table only. -/
theorem deleteLoop_frame (whr : Minion → Option MinionTag → Bool) (f : DeleteFaults)
    (n : Nat) (s : Store) (tr : List (List Int)) :
    (deleteLoop whr f n s tr).store.tags = s.tags ∧
    (deleteLoop whr f n s tr).store.substances = s.substances ∧
    (deleteLoop whr f n s tr).store.effects = s.effects ∧
    (deleteLoop whr f n s tr).store.derived = s.derived := by
  induction n generalizing s tr with
  | zero => exact ⟨rfl, rfl, rfl, rfl⟩
  | succ n ih =>
    cases hs : f.scan (100 - n) with
    | some e =>
      rw [deleteLoop_scan_err whr f n s tr e hs]
      exact ⟨rfl, rfl, rfl, rfl⟩
    | none =>
      by_cases h0 : (selectRound whr s).length = 0
      · rw [deleteLoop_empty whr f n s tr hs h0]
        exact ⟨rfl, rfl, rfl, rfl⟩
      · rw [deleteLoop_step whr f n s tr hs h0]
        obtain ⟨h1, h2, h3, h4⟩ := ih (if f.update (100 - n) = true then s
          else markDeleted s (selectRound whr s)) (tr ++ [selectRound whr s])
        rw [h1, h2, h3, h4]
        split_ifs <;> exact ⟨rfl, rfl, rfl, rfl⟩

/-- When the clause never holds of a row in status Delete, no statement fails and at
most `100 * n` ids are matched, `n` rounds turn exactly the rows with a matched id to
Delete and end without error. -/
theorem deleteLoop_complete (whr : Minion → Option MinionTag → Bool)
    (hw : ∀ m t, whr m t = true → m.status ≠ MinionStatus.MSDelete) (f : DeleteFaults)
    (hscan : ∀ k, f.scan k = none) (hupd : ∀ k, f.update k = false)
    (n : Nat) (s : Store) (tr : List (List Int))
    (hcount : (matchIds whr s).length ≤ 100 * n) :
    (deleteLoop whr f n s tr).err = none ∧
    (deleteLoop whr f n s tr).store.minions = s.minions.map (fun a =>
      if a.id ∈ matchIds whr s then { a with status := MinionStatus.MSDelete } else a) := by
  induction n generalizing s tr with
  | zero =>
    have hnil : matchIds whr s = [] := List.length_eq_zero.mp (by omega)
    simp [deleteLoop, hnil]
  | succ n ih =>
    obtain ⟨hsub, -, hlen⟩ := selectRound_facts whr s
    by_cases h0 : (selectRound whr s).length = 0
    · rw [deleteLoop_empty whr f n s tr (hscan _) h0]
      have hnil : matchIds whr s = [] := by
        apply List.length_eq_zero.mp
        rw [h0] at hlen
        omega
      simp [hnil]
    · rw [deleteLoop_step whr f n s tr (hscan _) h0]
      simp only [hupd, Bool.false_eq_true, if_false]
      have hle := matchIds_markDeleted_length whr hw s
      have hcount1 : (matchIds whr (markDeleted s (selectRound whr s))).length ≤ 100 * n := by
        rw [hlen] at hle
        omega
      obtain ⟨herr, hmin⟩ := ih (markDeleted s (selectRound whr s))
        (tr ++ [selectRound whr s]) hcount1
      refine ⟨herr, ?_⟩
      rw [hmin, markDeleted_minions, List.map_map]
      apply List.map_congr_left
      intro a _
      simp only [Function.comp]
      by_cases hin : a.id ∈ selectRound whr s
      · have hM : a.id ∈ matchIds whr s := hsub _ hin
        have hM1 : a.id ∉ matchIds whr (markDeleted s (selectRound whr s)) :=
          fun h => ((mem_matchIds_markDeleted whr hw s _ _).mp h).2 hin
        by_cases hst : a.status = MinionStatus.MSDelete
        · have hc : ¬ (a.status != MinionStatus.MSDelete &&
              decide (a.id ∈ selectRound whr s)) = true := by simp [hst]
          rw [if_neg hc, if_neg hM1, if_pos hM, setDelete_of_deleted a hst]
        · have hc : (a.status != MinionStatus.MSDelete &&
              decide (a.id ∈ selectRound whr s)) = true := by simp [hst, hin]
          rw [if_pos hc, if_pos hM]
          exact if_neg hM1
      · have hc : ¬ (a.status != MinionStatus.MSDelete &&
            decide (a.id ∈ selectRound whr s)) = true := by simp [hin]
        rw [if_neg hc]
        by_cases hM : a.id ∈ matchIds whr s
        · have hM1 : a.id ∈ matchIds whr (markDeleted s (selectRound whr s)) :=
            (mem_matchIds_markDeleted whr hw s _ _).mpr ⟨hM, hin⟩
          rw [if_pos hM1, if_pos hM]
        · have hM1 : a.id ∉ matchIds whr (markDeleted s (selectRound whr s)) :=
            fun h => hM ((mem_matchIds_markDeleted whr hw s _ _).mp h).1
          rw [if_neg hM1, if_neg hM]

/-- A clause without likes never holds of a row in status Delete. -/
theorem whereScope_not_deleted (scope : Minion → Option MinionTag → Bool) (m : Minion)
    (t : Option MinionTag) (h : whereScope scope m t = true) :
    m.status ≠ MinionStatus.MSDelete := by
  simp only [whereScope, Bool.and_eq_true, bne_iff_ne, ne_eq] at h
  exact h.1


/-! ### C17: completeness and frame of the bulk soft delete -/

/-- C17 does not hold of the code when `likes` is not empty: the likes are added to
the statement as alternatives to `status <> Delete` (`dao.Or`, lines 287-292). On the
fleet store with the single like `minion_tag.tag = '10.0.0.2'` only node 2 matches the
filter and is not in status Delete, no select or update fails, and `Delete` returns no
error; but its first select returns nodes 2, 3 and 4, so nodes 3 and 4, which do not
match the filter, are marked Delete, and the select then returns the deleted node 2 in
each of the 100 rounds. -/
theorem Delete_likes_marks_unmatched :
    matchIds (whereScope (tagIs "10.0.0.2")) fleetStore = [2] ∧
    selectRound (whereLikes [tagIs "10.0.0.2"]) fleetStore = [2, 3, 4] ∧
    (Delete (whereLikes [tagIs "10.0.0.2"]) sampleDeleteFaults fleetStore).err = none ∧
    (Delete (whereLikes [tagIs "10.0.0.2"]) sampleDeleteFaults fleetStore).store.minions =
      [sampleNode 1 "10.0.0.1" .MSDelete, sampleNode 2 "10.0.0.2" .MSDelete,
       sampleNode 3 "10.0.0.3" .MSDelete, sampleNode 4 "10.0.0.4" .MSDelete] ∧
    (Delete (whereLikes [tagIs "10.0.0.2"]) sampleDeleteFaults fleetStore).rounds.length
      = 100 := by
  refine ⟨by decide, by decide, by decide, by decide, by decide⟩

/-- The part of C17 the code keeps, which is the call without likes. When `likes` is
empty, every select and every update of `Delete` succeeds and at most 10,000 node ids
match (scope and status other than Delete), `Delete` returns no error and leaves the
minion table as it was except that every row with a matched id has its status set to
Delete: every node that matched is in status Delete, a row whose id is not matched is
unchanged, a row already in status Delete is unchanged, and no column other than the
status is written. The tag, substance, effect and derived tables are unchanged. An id
is matched when a node row with that id is not in status Delete and the scope holds of
it joined with one of its tag rows, or of it alone when it has no tag row. -/
theorem Delete_complete_no_likes (scope : Minion → Option MinionTag → Bool)
    (f : DeleteFaults) (s : Store) (hscan : ∀ k, f.scan k = none)
    (hupd : ∀ k, f.update k = false)
    (hcount : (matchIds (whereScope scope) s).length ≤ 10000) :
    (Delete (whereScope scope) f s).err = none ∧
    (Delete (whereScope scope) f s).store.minions = s.minions.map (fun a =>
      if a.id ∈ matchIds (whereScope scope) s
      then { a with status := MinionStatus.MSDelete } else a) ∧
    (∀ m ∈ (Delete (whereScope scope) f s).store.minions,
      m.id ∈ matchIds (whereScope scope) s → m.status = MinionStatus.MSDelete) ∧
    (∀ a ∈ s.minions,
      a.id ∉ matchIds (whereScope scope) s ∨ a.status = MinionStatus.MSDelete →
      a ∈ (Delete (whereScope scope) f s).store.minions) ∧
    List.Forall₂ softDeleted s.minions (Delete (whereScope scope) f s).store.minions ∧
    ((Delete (whereScope scope) f s).store.tags = s.tags ∧
      (Delete (whereScope scope) f s).store.substances = s.substances ∧
      (Delete (whereScope scope) f s).store.effects = s.effects ∧
      (Delete (whereScope scope) f s).store.derived = s.derived) ∧
    (∀ x, x ∈ matchIds (whereScope scope) s ↔ ∃ m ∈ s.minions, m.id = x ∧
      m.status ≠ MinionStatus.MSDelete ∧
      ((∃ t ∈ s.tags, t.minionID = m.id ∧ scope m (some t) = true) ∨
       ((∀ t ∈ s.tags, t.minionID ≠ m.id) ∧ scope m none = true))) := by
  obtain ⟨herr, hmin⟩ := deleteLoop_complete (whereScope scope)
    (whereScope_not_deleted scope) f hscan hupd 100 s [] (by omega)
  refine ⟨herr, hmin, ?_, ?_, deleteLoop_rel (whereScope scope) f 100 s [],
    deleteLoop_frame (whereScope scope) f 100 s [], ?_⟩
  · intro m hm hid
    rw [Delete, hmin] at hm
    obtain ⟨a, -, ha⟩ := List.mem_map.mp hm
    by_cases hin : a.id ∈ matchIds (whereScope scope) s
    · rw [if_pos hin] at ha
      rw [← ha]
    · rw [if_neg hin] at ha
      rw [← ha] at hid
      exact absurd hid hin
  · intro a ha h
    rw [Delete, hmin]
    refine List.mem_map.mpr ⟨a, ha, ?_⟩
    rcases h with h | h
    · rw [if_neg h]
    · split_ifs
      · exact setDelete_of_deleted a h
      · rfl
  · intro x
    rw [mem_matchIds]
    constructor
    · rintro ⟨m, t, hj, hc, hid⟩
      obtain ⟨hm, htag⟩ := (mem_joinedRows s m t).mp hj
      simp only [whereScope, Bool.and_eq_true, bne_iff_ne, ne_eq] at hc
      refine ⟨m, hm, hid, hc.1, ?_⟩
      rcases htag with ⟨y, hy, hyid, rfl⟩ | ⟨rfl, hall⟩
      · exact Or.inl ⟨y, hy, hyid, hc.2⟩
      · exact Or.inr ⟨hall, hc.2⟩
    · rintro ⟨m, hm, hid, hs, h⟩
      have hb : (m.status != MinionStatus.MSDelete) = true := by simpa using hs
      rcases h with ⟨y, hy, hyid, hc⟩ | ⟨hall, hc⟩
      · exact ⟨m, some y, (mem_joinedRows s m _).mpr ⟨hm, Or.inl ⟨y, hy, hyid, rfl⟩⟩,
          by simp only [whereScope, hb, hc, Bool.and_self], hid⟩
      · exact ⟨m, none, (mem_joinedRows s m _).mpr ⟨hm, Or.inr ⟨rfl, hall⟩⟩,
          by simp only [whereScope, hb, hc, Bool.and_self], hid⟩

/-- The call without likes at a concrete store, with the scope that holds of every
row: node 2 was Online and is marked Delete, node 1 was marked already and is
unchanged. -/
theorem Delete_complete_no_likes_witness :
    (Delete (whereScope (fun _ _ => true)) sampleDeleteFaults sampleStore).err = none ∧
    (Delete (whereScope (fun _ _ => true)) sampleDeleteFaults sampleStore).store.minions =
      [sampleNode 1 "10.0.0.1" .MSDelete, sampleNode 2 "10.0.0.2" .MSDelete] :=
  ⟨(Delete_complete_no_likes (fun _ _ => true) sampleDeleteFaults sampleStore (fun _ => rfl)
      (fun _ => rfl) (by decide)).1,
   (Delete_complete_no_likes (fun _ _ => true) sampleDeleteFaults sampleStore (fun _ => rfl)
      (fun _ => rfl) (by decide)).2.1.trans (by decide)⟩

end VelaManager
